import Mathlib

/-!
# Reolink "Baichuan" client (pkg/reolink): shallow embedding

Conventions of the embedding.

* A Go `[]byte` is a `List Nat`; the predicate `Bytes` says every element is `< 256`.
  A Go `string` that is read from the wire (the codec tag) is the list of its bytes.
* `uint8`, `uint16`, `uint32` values are `Nat`s; a conversion such as `byte(v)` is `v % 256`,
  shifts and ors are the `Nat` operations. Go's `int` is taken to be 64 bits wide, so
  `int(x)` of a `uint32` is `x` itself and the index sums below never wrap.
* An `io.Reader` over a connection is the finite list of bytes that the peer delivers before
  the stream ends; reading returns the value read together with the rest of the stream.
* A run-time panic (index or slice bound out of range, `panic(err)`) is `Fault.panic`, and
  `Abort.panic` where it ends a call of the stream reader; a call of `log.Fatalf` is
  `Abort.fatal`.
* `crypto/aes`, `crypto/md5` and `encoding/xml` are not part of the package: the AES block
  function and the decoder of the `Extension` document are parameters of the stream reader
  (`Env`), the digest and the XML codecs of the login are parameters of `login` (`LoginEnv`).
-/

namespace Reolink

/-! ## Bytes and little-endian helpers (`encoding/binary`) -/

/-- Every element of the list is a byte. -/
def Bytes (l : List Nat) : Prop := ∀ b ∈ l, b < 256

instance (l : List Nat) : Decidable (Bytes l) :=
  inferInstanceAs (Decidable (∀ b ∈ l, b < 256))

deriving instance DecidableEq for Except

/-- Faults of the media parser: the sentinel error `ErrInvalidPayloadSize`, or a run-time
panic of the Go program (index out of range, slice bounds out of range). -/
inductive Fault where
  | ErrInvalidPayloadSize
  | panic
deriving DecidableEq, Repr

/-- The Go expression `binary.LittleEndian.PutUint32(b[off:off+4], v)`. -/
def putUint32 (b : List Nat) (off : Nat) (v : Nat) : List Nat :=
  (((b.set off (v % 256)).set (off + 1) ((v >>> 8) % 256)).set (off + 2)
    ((v >>> 16) % 256)).set (off + 3) ((v >>> 24) % 256)

/-- The Go expression `binary.LittleEndian.PutUint16(b[off:off+2], v)`. -/
def putUint16 (b : List Nat) (off : Nat) (v : Nat) : List Nat :=
  (b.set off (v % 256)).set (off + 1) ((v >>> 8) % 256)

/-- The Go function `binary.LittleEndian.Uint32`: panics unless four bytes are present
(`_ = b[3]`), otherwise `b[0] | b[1]<<8 | b[2]<<16 | b[3]<<24`. -/
def Uint32 (b : List Nat) : Except Fault Nat :=
  match b with
  | b0 :: b1 :: b2 :: b3 :: _ => .ok (b0 ||| b1 <<< 8 ||| b2 <<< 16 ||| b3 <<< 24)
  | _ => .error .panic

/-- The Go function `binary.LittleEndian.Uint16`: panics unless two bytes are present. -/
def Uint16 (b : List Nat) : Except Fault Nat :=
  match b with
  | b0 :: b1 :: _ => .ok (b0 ||| b1 <<< 8)
  | _ => .error .panic

/-- `Uint32` on a slice that is known to hold four bytes (no panic possible). -/
def uint32At (b : List Nat) (off : Nat) : Nat :=
  b.getD off 0 ||| b.getD (off + 1) 0 <<< 8 ||| b.getD (off + 2) 0 <<< 16
    ||| b.getD (off + 3) 0 <<< 24

/-- `Uint16` on a slice that is known to hold two bytes (no panic possible). -/
def uint16At (b : List Nat) (off : Nat) : Nat :=
  b.getD off 0 ||| b.getD (off + 1) 0 <<< 8

/-- The four little-endian bytes of a 32-bit value. -/
def le32 (v : Nat) : List Nat :=
  [v % 256, (v >>> 8) % 256, (v >>> 16) % 256, (v >>> 24) % 256]

/-- The two little-endian bytes of a 16-bit value. -/
def le16 (v : Nat) : List Nat :=
  [v % 256, (v >>> 8) % 256]

/-! ## crypto.go -/

/-- Fixed XOR key used by the BC cipher. -/
def bcKey : List Nat := [0x1F, 0x2D, 0x3C, 0x4B, 0x5A, 0x69, 0x78, 0xFF]

/-- The loop `for i, b := range buf` with body `out[i] = f i b`, started at index `i`. -/
def rangeMap (f : Nat → Nat → Nat) : Nat → List Nat → List Nat
  | _, [] => []
  | i, b :: bs => f i b :: rangeMap f (i + 1) bs

/-- Source function `decryptBC` of crypto.go. -/
def decryptBC (encOffset : Nat) (buf : List Nat) : List Nat :=
  if buf.length = 0 then buf
  else
    let start := encOffset % 8
    let off := encOffset % 256
    rangeMap (fun i b => b ^^^ bcKey.getD ((start + i) % 8) 0 ^^^ off) 0 buf

/-- Source function `encryptBC` of crypto.go. -/
def encryptBC (encOffset : Nat) (buf : List Nat) : List Nat :=
  let o := encOffset % 256
  rangeMap (fun i b =>
    let key := bcKey.getD ((encOffset + i) % bcKey.length) 0
    b ^^^ key ^^^ o) 0 buf

/-- The fixed initialisation vector `aesIV`, the ASCII bytes of "0123456789abcdef". -/
def aesIV : List Nat :=
  [0x30, 0x31, 0x32, 0x33, 0x34, 0x35, 0x36, 0x37, 0x38, 0x39, 0x61, 0x62, 0x63, 0x64, 0x65, 0x66]

/-- The method `XORKeyStream` of the CFB stream of `crypto/cipher`, byte by byte: `out` is the
current key-stream block, `used` the number of its bytes already spent, `next` the register
that collects the cipher text of the current block; `blk` is the block encryption under the
key. -/
def cfbXORKeyStream (blk : List Nat → List Nat) (decrypt : Bool) :
    List Nat → Nat → List Nat → List Nat → List Nat
  | _, _, _, [] => []
  | out, used, next, s :: src =>
    let out1 := if used = out.length then blk next else out
    let used1 := if used = out.length then 0 else used
    let d := s ^^^ out1.getD used1 0
    let next1 := next.set used1 (if decrypt then s else d)
    d :: cfbXORKeyStream blk decrypt out1 (used1 + 1) next1 src

/-- The key sizes that `aes.NewCipher` accepts; for any other size it returns an error. -/
def validKeySize (key : List Nat) : Prop :=
  key.length = 16 ∨ key.length = 24 ∨ key.length = 32

instance (key : List Nat) : Decidable (validKeySize key) := by
  unfold validKeySize; infer_instance

/-- Source function `encryptAES` of crypto.go; `aesBlock key` stands for the block encryption
of `aes.NewCipher(key)`, and the function panics when `aes.NewCipher` returns an error. The
CFB stream starts from the fixed IV with an empty key-stream block. -/
def encryptAES (aesBlock : List Nat → List Nat → List Nat) (key body : List Nat) :
    Except Fault (List Nat) :=
  if validKeySize key then
    .ok (cfbXORKeyStream (aesBlock key) false (List.replicate 16 0) 16 aesIV body)
  else .error .panic

/-- Source function `decryptAES` of crypto.go. -/
def decryptAES (aesBlock : List Nat → List Nat → List Nat) (key encdat : List Nat) :
    Except Fault (List Nat) :=
  if validKeySize key then
    .ok (cfbXORKeyStream (aesBlock key) true (List.replicate 16 0) 16 aesIV encdat)
  else .error .panic

/-! ## header.go -/

/-- Magic number, on the wire `f0 de bc 0a`. -/
def MagicLE : Nat := 0x0ABCDEF0

/-- 20-byte header: legacy login/upgrade. -/
def ClassLegacy20 : Nat := 0x6514
/-- 20-byte header: modern (no payload offset). -/
def ClassModern20 : Nat := 0x6614
/-- 24-byte header: modern (has payload offset). -/
def ClassModern24 : Nat := 0x6414
/-- 24-byte header: big-endian class marker observed. -/
def ClassModern24BE : Nat := 0x1464
/-- 24-byte header: modern (alt). -/
def ClassModern00 : Nat := 0x0000

/-- Source type `Header`: a unified view over 20/24 byte headers. -/
structure Header where
  Magic : Nat
  MessageID : Nat
  BodyLength : Nat
  Channel : Nat
  Stream : Nat
  Handle : Nat
  Status : Nat
  Class : Nat
  EncOffset : Nat
  PayloadOffset : Nat
  Is24 : Bool
deriving DecidableEq, Repr

/-- The zero value of `Header`. -/
def Header.zero : Header :=
  { Magic := 0, MessageID := 0, BodyLength := 0, Channel := 0, Stream := 0, Handle := 0,
    Status := 0, Class := 0, EncOffset := 0, PayloadOffset := 0, Is24 := false }

/-- The fields of a header hold values of their Go types. -/
def Header.WF (h : Header) : Prop :=
  h.Magic < 2 ^ 32 ∧ h.MessageID < 2 ^ 32 ∧ h.BodyLength < 2 ^ 32 ∧ h.Channel < 2 ^ 8 ∧
  h.Stream < 2 ^ 8 ∧ h.Handle < 2 ^ 8 ∧ h.Status < 2 ^ 16 ∧ h.Class < 2 ^ 16 ∧
  h.EncOffset < 2 ^ 32 ∧ h.PayloadOffset < 2 ^ 32

instance (h : Header) : Decidable h.WF := by
  unfold Header.WF; infer_instance

/-- Source function `writeHeader` of header.go: the bytes handed to `w.Write`. -/
def writeHeader (h : Header) : List Nat :=
  if h.Class = ClassLegacy20 ∨ h.Class = ClassModern20 then
    let hdr := List.replicate 20 0
    let hdr := putUint32 hdr 0 h.Magic
    let hdr := putUint32 hdr 4 h.MessageID
    let hdr := putUint32 hdr 8 h.BodyLength
    let hdr := putUint32 hdr 12 h.EncOffset
    let hdr := putUint16 hdr 16 h.Status
    let hdr := putUint16 hdr 18 h.Class
    hdr
  else if h.Class = ClassModern24 ∨ h.Class = ClassModern00 ∨ h.Class = ClassModern24BE then
    let hdr := List.replicate 24 0
    let hdr := putUint32 hdr 0 h.Magic
    let hdr := putUint32 hdr 4 h.MessageID
    let hdr := putUint32 hdr 8 h.BodyLength
    let hdr := putUint32 hdr 12 h.EncOffset
    let hdr := putUint16 hdr 16 h.Status
    let hdr := putUint16 hdr 18 h.Class
    let hdr := putUint32 hdr 20 h.PayloadOffset
    hdr
  else []

/-- Source function `buildEncOffset` of header.go. -/
def buildEncOffset (channel stream handle : Nat) : Nat :=
  (channel ||| stream <<< 8 ||| 0 <<< 16 ||| handle <<< 24) % 2 ^ 32

/-- Source function `parseEncOffset` of header.go: `(channel, stream, handle)`. -/
def parseEncOffset (encOffset : Nat) : Nat × Nat × Nat :=
  (encOffset % 256, (encOffset >>> 8) % 256, (encOffset >>> 24) % 256)

/-- Errors of `io.ReadFull`. -/
inductive IoError where
  | EOF
  | ErrUnexpectedEOF
deriving DecidableEq, Repr

/-- The Go call `io.ReadFull(r, buf)` with `len(buf) = n` on the stream `r`: the bytes read
(or the error) and the rest of the stream. A stream that ends early is consumed whole. -/
def readFull (r : List Nat) (n : Nat) : Except IoError (List Nat) × List Nat :=
  if n ≤ r.length then (.ok (r.take n), r.drop n)
  else if r.length = 0 then (.error .EOF, [])
  else (.error .ErrUnexpectedEOF, [])

/-- The header that `parseHeader` holds once it has decoded the first 20 bytes `buf`
(before it looks at the class). -/
def fixedFields (buf : List Nat) : Header :=
  { Magic := uint32At buf 0
    MessageID := uint32At buf 4
    BodyLength := uint32At buf 8
    EncOffset := uint32At buf 12
    Channel := (parseEncOffset (uint32At buf 12)).1
    Stream := (parseEncOffset (uint32At buf 12)).2.1
    Handle := (parseEncOffset (uint32At buf 12)).2.2
    Status := uint16At buf 16
    Class := uint16At buf 18
    PayloadOffset := 0
    Is24 := false }

/-- Source function `parseHeader` of header.go, on the stream `r`: the header (or the read
error) and the rest of the stream. -/
def parseHeader (r : List Nat) : Except IoError Header × List Nat :=
  match readFull r 20 with
  | (.error e, r1) => (.error e, r1)
  | (.ok buf, r1) =>
    let encOffset := uint32At buf 12
    let (channel, stream, handle) := parseEncOffset encOffset
    let h : Header :=
      { Magic := uint32At buf 0
        MessageID := uint32At buf 4
        BodyLength := uint32At buf 8
        EncOffset := encOffset
        Channel := channel
        Stream := stream
        Handle := handle
        Status := uint16At buf 16
        Class := uint16At buf 18
        PayloadOffset := 0
        Is24 := false }
    if h.Class = ClassModern00 ∨ h.Class = ClassModern24 then
      match readFull r1 4 with
      | (.error e, r2) => (.error e, r2)
      | (.ok po, r2) =>
        (.ok { h with PayloadOffset := uint32At po 0, Is24 := true }, r2)
    else (.ok h, r1)

/-! ## connection.go: the message reader -/

/-- Source type `BCMsg`. -/
structure BCMsg where
  header : Header
  body : List Nat
deriving DecidableEq, Repr

/-- The zero value of `BCMsg`. -/
def BCMsg.zero : BCMsg := { header := Header.zero, body := [] }

/-- The two errors that `MessageReader.Next` wraps. -/
inductive ReadError where
  | parseHeaderFailed (e : IoError)
  | readBody (e : IoError)
deriving DecidableEq, Repr

/-- Source method `MessageReader.Next` of connection.go, on the stream `r`. -/
def MessageReader.Next (r : List Nat) : Except ReadError BCMsg × List Nat :=
  match parseHeader r with
  | (.error e, r1) => (.error (.parseHeaderFailed e), r1)
  | (.ok h, r1) =>
    if h.BodyLength > 0 then
      match readFull r1 h.BodyLength with
      | (.error e, r2) => (.error (.readBody e), r2)
      | (.ok body, r2) => (.ok { header := h, body := body }, r2)
    else (.ok { header := h, body := [] }, r1)

/-! ## connection.go: the send paths

A send returns the bytes handed to the connection, the header first and the body after it;
the two calls of `Write` are taken to succeed. The conversion `uint32(len(x))` is the length
modulo `2 ^ 32`. -/

/-- Source method `BCConn.bcSend` of connection.go. Without `bcEncrypt` the extension is not
part of the body. -/
def bcSend (header : Header) (extension body : List Nat) (bcEncrypt : Bool) : List Nat :=
  let header := { header with EncOffset := buildEncOffset header.Channel 0 header.Handle }
  let header :=
    if extension.length > 0 then { header with PayloadOffset := extension.length % 2 ^ 32 }
    else header
  let body :=
    if bcEncrypt then
      encryptBC header.EncOffset extension ++ encryptBC header.EncOffset body
    else body
  let header := { header with BodyLength := body.length % 2 ^ 32 }
  writeHeader header ++ body

/-- The header that `bcSend` and `aesSend` write for the header `header` they are given, the
extension, and the body `body` that follows the header on the wire. -/
def sentHeader (header : Header) (extension body : List Nat) : Header :=
  let header := { header with EncOffset := buildEncOffset header.Channel 0 header.Handle }
  let header :=
    if extension.length > 0 then { header with PayloadOffset := extension.length % 2 ^ 32 }
    else header
  { header with BodyLength := body.length % 2 ^ 32 }

/-- Source method `BCConn.aesSend` of connection.go, with the key `aesKey` of the connection;
it panics when `encryptAES` does. -/
def aesSend (aesBlock : List Nat → List Nat → List Nat) (aesKey : List Nat) (header : Header)
    (extension body : List Nat) : Except Fault (List Nat) := do
  let header := { header with EncOffset := buildEncOffset header.Channel 0 header.Handle }
  let header :=
    if extension.length > 0 then { header with PayloadOffset := extension.length % 2 ^ 32 }
    else header
  let encBody ← encryptAES aesBlock aesKey body
  let extBody ← encryptAES aesBlock aesKey extension
  let body := extBody ++ encBody
  let header := { header with BodyLength := body.length % 2 ^ 32 }
  pure (writeHeader header ++ body)

/-- The spec's definition of the BC XOR cipher, byte `i` of the output for input byte `x`:
`x XOR K[(E + i) mod 8] XOR (E AND 0xFF)`. -/
def bcSpecByte (E i x : Nat) : Nat :=
  x ^^^ bcKey.getD ((E + i) % 8) 0 ^^^ (E &&& 0xFF)

/-! ## crypto.go and connection.go: the digests and the login

`crypto/md5` and `encoding/xml` are not part of the package: the digest function and the two
XML codecs of the login are parameters (`LoginEnv`). `md5.Sum` returns a `[16]byte`; the
theorems about `md5HexUpper` assume that the digest parameter returns 16 bytes. -/

/-- The digits of `fmt` for the verb `%X`. -/
def udigits : List Nat :=
  [0x30, 0x31, 0x32, 0x33, 0x34, 0x35, 0x36, 0x37, 0x38, 0x39, 0x41, 0x42, 0x43, 0x44, 0x45, 0x46]

/-- The Go expression `fmt.Sprintf("%X", b)` for a byte slice `b`: two upper-case hexadecimal
digits per byte, high nibble first. -/
def sprintfHexUpper : List Nat → List Nat
  | [] => []
  | c :: cs => udigits.getD (c >>> 4) 0 :: udigits.getD (c &&& 0xF) 0 :: sprintfHexUpper cs

/-- Source function `md5HexUpper` of crypto.go, with `md5Sum` for `md5.Sum`. -/
def md5HexUpper (md5Sum : List Nat → List Nat) (b : List Nat) : List Nat :=
  let sum := md5Sum b
  (sprintfHexUpper sum).take 31

/-- Source constant `EncReqAESCam`. -/
def EncReqAESCam : Nat := 0xDC12

/-- The struct `LoginUser` inside the source type `ModernLoginReq`. -/
structure LoginUser where
  Text : List Nat
  Version : List Nat
  UserName : List Nat
  Password : List Nat
  UserVer : List Nat
deriving DecidableEq, Repr

/-- The struct `LoginNet` inside the source type `ModernLoginReq` (`NetType` is the field
`Type`). -/
structure LoginNet where
  Text : List Nat
  Version : List Nat
  NetType : List Nat
  UdpPort : List Nat
deriving DecidableEq, Repr

/-- Source type `ModernLoginReq` of model.go. -/
structure ModernLoginReq where
  LoginUser : LoginUser
  LoginNet : LoginNet
deriving DecidableEq, Repr

/-- The request that `NewModernLoginReq` fills in before it marshals it; the strings are
"1.1", "1", "LAN" and "0". -/
def modernLoginReq (userHash passHash : List Nat) : ModernLoginReq :=
  { LoginUser := { Text := [], Version := [0x31, 0x2E, 0x31], UserName := userHash,
                   Password := passHash, UserVer := [0x31] }
    LoginNet := { Text := [], Version := [0x31, 0x2E, 0x31], NetType := [0x4C, 0x41, 0x4E],
                  UdpPort := [0x30] } }

/-- Source function `NewModernLoginReq` of model.go, with `xmlMarshal` for `xml.Marshal`
(which does not fail on this struct). -/
def NewModernLoginReq (xmlMarshal : ModernLoginReq → List Nat) (userHash passHash : List Nat) :
    List Nat :=
  xmlMarshal (modernLoginReq userHash passHash)

/-- The constant `xml.Header`: the XML declaration followed by a newline. -/
def xmlHeader : List Nat :=
  [60, 63, 120, 109, 108, 32, 118, 101, 114, 115, 105, 111, 110, 61, 34, 49, 46, 48, 34, 32,
   101, 110, 99, 111, 100, 105, 110, 103, 61, 34, 85, 84, 70, 45, 56, 34, 63, 62, 10]

/-- What the login takes from outside: `md5.Sum`, `xml.Marshal` of the login request,
`xml.Unmarshal` of the legacy reply (the nonce it holds, `none` on an error) and
`xml.Unmarshal` of the modern reply (`false` on an error). -/
structure LoginEnv where
  md5Sum : List Nat → List Nat
  xmlMarshal : ModernLoginReq → List Nat
  unmarshalLegacyNonce : List Nat → Option (List Nat)
  unmarshalModern : List Nat → Bool

/-- The errors that `login` returns. -/
inductive LoginError where
  | readLegacyReply (e : ReadError)
  | unmarshalLegacy
  | noNonce
  | readModernReply (e : ReadError)
  | unmarshalModern
deriving DecidableEq, Repr

/-- A run of `login`: the bytes written to the connection, the nonce and the key stored in the
connection (empty while not set), the error or the decrypted modern reply (which stands for
the `ModernLoginRes` decoded from it), and the part of the stream not yet read. -/
structure LoginRun where
  written : List Nat
  nonce : List Nat
  aesKey : List Nat
  result : Except LoginError (List Nat)
  rest : List Nat

/-- The header of the legacy upgrade request of `login`. -/
def legacyLoginHeader : Header :=
  { Header.zero with Magic := MagicLE, MessageID := 1, Status := EncReqAESCam, Handle := 1,
                     Class := ClassLegacy20 }

/-- The header of the modern login request of `login`: the same variable with the class
changed. -/
def modernLoginHeader : Header :=
  { legacyLoginHeader with Magic := MagicLE, MessageID := 1, Status := 0, Handle := 1,
                           Class := ClassModern24 }

/-- Source method `BCConn.login` of connection.go on the reply stream `r`; the writes are
taken to succeed. -/
def login (env : LoginEnv) (username password r : List Nat) : LoginRun :=
  let w1 := bcSend legacyLoginHeader [] [] false
  match MessageReader.Next r with
  | (.error e, r1) =>
    { written := w1, nonce := [], aesKey := [], result := .error (.readLegacyReply e),
      rest := r1 }
  | (.ok msg, r1) =>
    let dec := decryptBC msg.header.EncOffset msg.body
    match env.unmarshalLegacyNonce dec with
    | none =>
      { written := w1, nonce := [], aesKey := [], result := .error .unmarshalLegacy,
        rest := r1 }
    | some nonce =>
      if nonce = [] then
        { written := w1, nonce := [], aesKey := [], result := .error .noNonce, rest := r1 }
      else
        let keyString := (md5HexUpper env.md5Sum (nonce ++ [0x2D] ++ password)).take 16
        let userHash := md5HexUpper env.md5Sum (username ++ nonce)
        let passHash := md5HexUpper env.md5Sum (password ++ nonce)
        let b := NewModernLoginReq env.xmlMarshal userHash passHash
        let xmlBody := xmlHeader ++ b
        let w2 := bcSend modernLoginHeader [] xmlBody true
        match MessageReader.Next r1 with
        | (.error e, r2) =>
          { written := w1 ++ w2, nonce := nonce, aesKey := keyString,
            result := .error (.readModernReply e), rest := r2 }
        | (.ok msg2, r2) =>
          let dec2 := decryptBC msg2.header.EncOffset msg2.body
          if env.unmarshalModern dec2 then
            { written := w1 ++ w2, nonce := nonce, aesKey := keyString, result := .ok dec2,
              rest := r2 }
          else
            { written := w1 ++ w2, nonce := nonce, aesKey := keyString,
              result := .error .unmarshalModern, rest := r2 }

/-! ## media.go: the sub-packet parsers

A `bytes.Buffer` over `payload` is the list of bytes not yet read: `buf.Next(n)` returns
`buf.take n` (fewer than `n` bytes when the buffer is shorter) and leaves `buf.drop n`. -/

/-- Source function `parseIFrame` of media.go: `(data, ms, time, codec)`. -/
def parseIFrame (payload : List Nat) : Except Fault (List Nat × Nat × Nat × List Nat) := do
  let buf := payload.drop 4
  let codec := buf.take 4
  let buf := buf.drop 4
  let payloadSize ← Uint32 (buf.take 4)
  let buf := buf.drop 4
  let additionalHeader ← Uint32 (buf.take 4)
  let buf := buf.drop 4
  let ms ← Uint32 (buf.take 4)
  let buf := buf.drop 4
  let _ ← Uint32 (buf.take 4)
  let buf := buf.drop 4
  let time ← if additionalHeader ≥ 4 then Uint32 (buf.take 4) else pure 0
  let buf := if additionalHeader ≥ 4 then buf.drop 4 else buf
  let buf := if additionalHeader > 4 then buf.drop (additionalHeader - 4) else buf
  let data := buf.take payloadSize
  if data.length ≠ payloadSize then throw Fault.ErrInvalidPayloadSize
  pure (data, ms, time, codec)

/-- Source function `parsePFrame` of media.go: `(data, ms, codec)`. The additional header is
skipped inside a call of `Uint32`, which needs four bytes. -/
def parsePFrame (payload : List Nat) : Except Fault (List Nat × Nat × List Nat) := do
  let buf := payload.drop 4
  let codec := buf.take 4
  let buf := buf.drop 4
  let payloadSize ← Uint32 (buf.take 4)
  let buf := buf.drop 4
  let additionalHeader ← Uint32 (buf.take 4)
  let buf := buf.drop 4
  let ms ← Uint32 (buf.take 4)
  let buf := buf.drop 4
  let _ ← Uint32 (buf.take 4)
  let buf := buf.drop 4
  let _ ← Uint32 (buf.take additionalHeader)
  let buf := buf.drop additionalHeader
  let data := buf.take payloadSize
  if data.length ≠ payloadSize then throw Fault.ErrInvalidPayloadSize
  pure (data, ms, codec)

/-- Source function `parseAACFrame` of media.go. -/
def parseAACFrame (payload : List Nat) : Except Fault (List Nat) := do
  let buf := payload.drop 4
  let payloadSize ← Uint16 (buf.take 2)
  let buf := buf.drop 2
  let _ ← Uint16 (buf.take 2)
  let buf := buf.drop 2
  let data := buf.take payloadSize
  if data.length ≠ payloadSize then throw Fault.ErrInvalidPayloadSize
  pure data

/-- Source type `InfoV2`. -/
structure InfoV2 where
  Width : Nat
  Height : Nat
  FPS : Nat
  StartYear : Nat
  StartMonth : Nat
  StartDate : Nat
  StartHour : Nat
  StartMinute : Nat
  StartSecond : Nat
  EndYear : Nat
  EndMonth : Nat
  EndDate : Nat
  EndHour : Nat
  EndMinute : Nat
  EndSecond : Nat
deriving DecidableEq, Repr

/-- The Go expression `buf.Next(1)[0]`: panics on an exhausted buffer. -/
def firstByte (buf : List Nat) : Except Fault Nat :=
  match buf with
  | b :: _ => .ok b
  | [] => .error .panic

/-- Source function `parseInfoV2` of media.go. -/
def parseInfoV2 (payload : List Nat) : Except Fault InfoV2 := do
  let buf := payload.drop 4
  let buf := buf.drop 4
  let width ← Uint32 (buf.take 4)
  let buf := buf.drop 4
  let height ← Uint32 (buf.take 4)
  let buf := buf.drop 4
  let buf := buf.drop 1
  let fps ← firstByte buf
  let buf := buf.drop 1
  let startYear ← firstByte buf
  let buf := buf.drop 1
  let startMonth ← firstByte buf
  let buf := buf.drop 1
  let startDate ← firstByte buf
  let buf := buf.drop 1
  let startHour ← firstByte buf
  let buf := buf.drop 1
  let startMinute ← firstByte buf
  let buf := buf.drop 1
  let startSecond ← firstByte buf
  let buf := buf.drop 1
  let endYear ← firstByte buf
  let buf := buf.drop 1
  let endMonth ← firstByte buf
  let buf := buf.drop 1
  let endDate ← firstByte buf
  let buf := buf.drop 1
  let endHour ← firstByte buf
  let buf := buf.drop 1
  let endMinute ← firstByte buf
  let buf := buf.drop 1
  let endSecond ← firstByte buf
  pure { Width := width, Height := height, FPS := fps,
         StartYear := (startYear + 1900) % 2 ^ 16, StartMonth := startMonth,
         StartDate := startDate, StartHour := startHour, StartMinute := startMinute,
         StartSecond := startSecond,
         EndYear := (endYear + 1900) % 2 ^ 16, EndMonth := endMonth, EndDate := endDate,
         EndHour := endHour, EndMinute := endMinute, EndSecond := endSecond }

/-- Source type `BCMediaPacket`; `Codec` is the Go string as its list of bytes. -/
structure BCMediaPacket where
  Codec : List Nat
  Data : List Nat
  Microseconds : Nat
  Timestamp : Nat
  info : Option InfoV2
deriving DecidableEq, Repr

/-- Magic of an I-frame sub-packet. -/
def iFrameMagic : List Nat := [0x30, 0x30, 0x64, 0x63]
/-- Magic of a P-frame sub-packet. -/
def pFrameMagic : List Nat := [0x30, 0x31, 0x64, 0x63]
/-- Magic of an AAC sub-packet. -/
def aacMagic : List Nat := [0x30, 0x35, 0x77, 0x62]
/-- Magic of an InfoV2 sub-packet. -/
def infoV2Magic : List Nat := [0x31, 0x30, 0x30, 0x32]

/-- The Go string "info". -/
def codecInfo : List Nat := [0x69, 0x6E, 0x66, 0x6F]
/-- The Go string "AAC". -/
def codecAAC : List Nat := [0x41, 0x41, 0x43]
/-- The Go string "H264". -/
def codecH264 : List Nat := [0x48, 0x32, 0x36, 0x34]

/-- Source function `NewBCMediaPacket` of media.go. The slice expression `data[:4]` panics on
an input shorter than four bytes (the capacity of the slice is taken to be its length). In
the default case `codec` keeps its zero value, the empty string. -/
def NewBCMediaPacket (data : List Nat) : Except Fault BCMediaPacket :=
  if data.length < 4 then .error .panic
  else
    let magic := data.take 4
    if magic = infoV2Magic then do
      let info ← parseInfoV2 data
      pure { Codec := codecInfo, Data := data, Microseconds := 0, Timestamp := 0,
             info := some info }
    else if magic = iFrameMagic then do
      let (p, ms, timestamp, codec) ← parseIFrame data
      pure { Codec := codec, Data := p, Microseconds := ms, Timestamp := timestamp,
             info := none }
    else if magic = pFrameMagic then do
      let (p, ms, codec) ← parsePFrame data
      pure { Codec := codec, Data := p, Microseconds := ms, Timestamp := 0, info := none }
    else if magic = aacMagic then do
      let p ← parseAACFrame data
      pure { Codec := codecAAC, Data := p, Microseconds := 0, Timestamp := 0, info := none }
    else
      pure { Codec := [], Data := data, Microseconds := 0, Timestamp := 0, info := none }

/-! ## media.go: the stream reader -/

/-- Source type `Extension` of model.go (the fields the reader uses are Go `int`s). -/
structure Extension where
  EncryptLen : Int
  BinaryData : Int
  CheckPos : Int
  CheckValue : Int
deriving DecidableEq, Repr

/-- What the reader takes from outside: the AES block encryption (`crypto/aes`, a function
from key and 16-byte block to 16-byte block), the key that the login stored in the connection,
and the decoder `xml.Unmarshal` into an `Extension` (`none` when it reports an error). -/
structure Env where
  aesBlock : List Nat → List Nat → List Nat
  aesKey : List Nat
  unmarshalExtension : List Nat → Option Extension

/-- Ways a call can end without returning: a run-time panic, or `log.Fatalf`. -/
inductive Abort where
  | panic
  | fatal
deriving DecidableEq, Repr

/-- Result of running `BCStreamReader.Next`: the packet returned together with the part of the
connection stream not yet read, an abort of the process, or the loop still running when the
iteration budget of the model is spent. -/
inductive Outcome where
  | packet (p : BCMediaPacket) (rest : List Nat)
  | abort (a : Abort)
  | running
deriving DecidableEq, Repr

/-- The filter at the head of the loop body of `BCStreamReader.Next`. -/
def isMedia (h : Header) : Prop :=
  h.Status = 200 ∧ h.MessageID = 3 ∧ h.Handle = 1

instance (h : Header) : Decidable (isMedia h) := by
  unfold isMedia; infer_instance

/-- The part of the loop body of `BCStreamReader.Next` between the filter and the dispatch on
`BinaryData`: split the body at the payload offset, decrypt and decode the extension, decrypt
the payload when `EncryptLen` is not 0. The result is the extension and `decryptedPayload`.
The slice expressions panic when their bounds are out of range. -/
def decodeSegment (env : Env) (msg : BCMsg) : Except Abort (Extension × List Nat) :=
  let h := msg.header
  let resp := msg.body
  let extLen := h.PayloadOffset
  if extLen > resp.length then .error .panic
  else if h.BodyLength > resp.length ∨ extLen > h.BodyLength then .error .panic
  else
    let extBytes := resp.take extLen
    let payloadBytes := (resp.take h.BodyLength).drop extLen
    match decryptAES env.aesBlock env.aesKey extBytes with
    | .error _ => .error .panic
    | .ok ext =>
      match env.unmarshalExtension ext with
      | none => .error .fatal
      | some extension =>
        if extension.EncryptLen ≠ 0 then
          match decryptAES env.aesBlock env.aesKey payloadBytes with
          | .error _ => .error .panic
          | .ok plain =>
            if extension.EncryptLen < 0 ∨ extension.EncryptLen > plain.length then
              .error .panic
            else .ok (extension, plain.take extension.EncryptLen.toNat)
        else .ok (extension, payloadBytes)

/-- Source method `BCStreamReader.Next` of media.go, run for at most `fuel` iterations of its
loop on the connection stream `r`, with the reassembly buffer `current` (`none` for the nil
pointer; a call starts with `none`). The error of `readHeaderAndBody` is not looked at: the
loop goes on with the zero message. `NewBCMediaPacket` returns no error other than
`ErrInvalidPayloadSize`, so the branches for other errors are never taken. -/
def BCStreamReader.Next (env : Env) : Nat → Option (List Nat) → List Nat → Outcome
  | 0, _, _ => .running
  | fuel + 1, current, r =>
    let res := MessageReader.Next r
    let msg := match res.1 with
      | .ok m => m
      | .error _ => BCMsg.zero
    let h := msg.header
    if h.Status ≠ 200 then BCStreamReader.Next env fuel current res.2
    else if h.MessageID ≠ 3 then BCStreamReader.Next env fuel current res.2
    else if h.Handle ≠ 1 then BCStreamReader.Next env fuel current res.2
    else
      match decodeSegment env msg with
      | .error a => .abort a
      | .ok (extension, decryptedPayload) =>
        if extension.BinaryData = 1 then
          match NewBCMediaPacket decryptedPayload with
          | .error .ErrInvalidPayloadSize =>
            BCStreamReader.Next env fuel (some decryptedPayload) res.2
          | .error .panic => .abort .panic
          | .ok p => .packet p res.2
        else
          match current with
          | none => BCStreamReader.Next env fuel none res.2
          | some cur =>
            match NewBCMediaPacket (cur ++ decryptedPayload) with
            | .error .ErrInvalidPayloadSize =>
              BCStreamReader.Next env fuel (some (cur ++ decryptedPayload)) res.2
            | .error .panic => .abort .panic
            | .ok p => .packet p res.2

/-- The stream `r` holds the messages `ms` one after the other, followed by `rest`. -/
def Delivers : List Nat → List BCMsg → List Nat → Prop
  | r, [], rest => r = rest
  | r, m :: ms, rest => ∃ r1, MessageReader.Next r = (.ok m, r1) ∧ Delivers r1 ms rest

/-! ## A concrete run of the reader

A stand-in for the outside world and a stream of two media messages, on which the reader is
evaluated. -/

/-- An environment in which the key stream is zero (the block encryption returns the zero
block, so `decryptAES` returns its input) and the extension document is a single byte that
holds `binaryData`. -/
def plainEnv : Env :=
  { aesBlock := fun _ _ => List.replicate 16 0
    aesKey := List.replicate 16 0x30
    unmarshalExtension := fun x =>
      match x with
      | [b] => some { EncryptLen := 0, BinaryData := b, CheckPos := 0, CheckValue := 0 }
      | _ => none }

/-- The header of a media message: status 200, message_id 3, handle 1, class 0x6414. -/
def mediaHeader (bodyLength payloadOffset : Nat) : Header :=
  { Magic := MagicLE, MessageID := 3, BodyLength := bodyLength, Channel := 0, Stream := 0,
    Handle := 1, Status := 200, Class := ClassModern24, EncOffset := 0x01000000,
    PayloadOffset := payloadOffset, Is24 := true }

/-- The first segment of an H264 I-frame that declares a payload of 100 bytes (no additional
header, microseconds 7) and carries 60 of them. -/
def headSegment : List Nat :=
  iFrameMagic ++ codecH264 ++ le32 100 ++ le32 0 ++ le32 7 ++ [0, 0, 0, 0]
    ++ List.replicate 60 0xAB

/-- The message that carries `headSegment`, with binary_data 1. -/
def headMessage : BCMsg := { header := mediaHeader 85 1, body := 1 :: headSegment }

/-- The continuation message, with binary_data 0 and the remaining 40 bytes. -/
def tailMessage : BCMsg := { header := mediaHeader 41 1, body := 0 :: List.replicate 40 0xCD }

/-- The two messages on the wire, followed by one more byte. -/
def twoSegmentStream : List Nat :=
  writeHeader headMessage.header ++ headMessage.body
    ++ (writeHeader tailMessage.header ++ tailMessage.body) ++ [0xF0]

/-- A block function that mixes key and block, to run the CFB stream on concrete data. -/
def mixBlock (key block : List Nat) : List Nat :=
  List.zipWith (fun k x => (k + 3 * x + 1) % 256) key block

/-- A stand-in for the outside world of the login: the digest is a fixed 16-byte value that
ends in the byte of the input length, the request is marshalled as user name and password
side by side, the legacy reply is its nonce, and every modern reply is accepted. -/
def plainLoginEnv : LoginEnv :=
  { md5Sum := fun x => List.replicate 15 0xA7 ++ [x.length % 256]
    xmlMarshal := fun req => req.LoginUser.UserName ++ req.LoginUser.Password
    unmarshalLegacyNonce := fun x => some x
    unmarshalModern := fun _ => true }

/-- The legacy reply of a camera on the wire: a 20-byte header with enc_offset 0x01000000 and
the nonce "AB" under the BC cipher. -/
def legacyReply : List Nat :=
  writeHeader { Header.zero with Magic := MagicLE, MessageID := 1, BodyLength := 2,
                                 Handle := 1, Status := 0xDD12, Class := ClassLegacy20,
                                 EncOffset := 0x01000000 }
    ++ encryptBC 0x01000000 [0x41, 0x42]

/-- A complete H264 I-frame with a payload of two bytes (no additional header,
microseconds 9). -/
def wholeSegment : List Nat :=
  iFrameMagic ++ codecH264 ++ le32 2 ++ le32 0 ++ le32 9 ++ [0, 0, 0, 0] ++ [0x11, 0x22]

/-- The message that carries `wholeSegment`, with binary_data 1. -/
def wholeMessage : BCMsg := { header := mediaHeader 27 1, body := 1 :: wholeSegment }

/-- A message with status 500, which the filter of the reader rejects. -/
def statusMessage : BCMsg :=
  { header := { mediaHeader 3 0 with Status := 500 }, body := [9, 9, 9] }

/-- A media message with binary_data 0 and the segment `05 06 07`. -/
def strayMessage : BCMsg := { header := mediaHeader 4 1, body := [0, 5, 6, 7] }

/-- An environment like `plainEnv` in which the extension document is two bytes, `binaryData`
and `encryptLen`. -/
def sizedEnv : Env :=
  { aesBlock := fun _ _ => List.replicate 16 0
    aesKey := List.replicate 16 0x30
    unmarshalExtension := fun x =>
      match x with
      | [b, n] => some { EncryptLen := n, BinaryData := b, CheckPos := 0, CheckValue := 0 }
      | _ => none }

/-- A media message for `sizedEnv` with binary_data 0 and encrypt_len 9 in front of a payload
of three bytes. -/
def oversizedStray : BCMsg := { header := mediaHeader 5 2, body := [0, 9, 5, 6, 7] }

/-- The message that carries `wholeSegment` for `sizedEnv`, with binary_data 1 and
encrypt_len 0. -/
def sizedWhole : BCMsg := { header := mediaHeader 28 2, body := 1 :: 0 :: wholeSegment }

/-- The bytes of a message on the wire. -/
def wireOf (m : BCMsg) : List Nat := writeHeader m.header ++ m.body

/-! ## Theorems -/

theorem rangeMap_length (f : Nat → Nat → Nat) (i : Nat) (l : List Nat) :
    (rangeMap f i l).length = l.length := by
  induction l generalizing i with
  | nil => rfl
  | cons b bs ih => simp [rangeMap, ih]

theorem rangeMap_rangeMap (f g : Nat → Nat → Nat) (i : Nat) (l : List Nat) :
    rangeMap f i (rangeMap g i l) = rangeMap (fun j b => f j (g j b)) i l := by
  induction l generalizing i with
  | nil => rfl
  | cons b bs ih => simp [rangeMap, ih]

theorem rangeMap_id (f : Nat → Nat → Nat) (hf : ∀ j b, f j b = b) (i : Nat) (l : List Nat) :
    rangeMap f i l = l := by
  induction l generalizing i with
  | nil => rfl
  | cons b bs ih => simp [rangeMap, ih, hf]

/-- C1: for every byte string `b` and every offset `E`, decrypting with `decryptBC` under `E`
what `encryptBC` produced under `E` gives `b` back. -/
theorem decryptBC_encryptBC (E : Nat) (b : List Nat) :
    decryptBC E (encryptBC E b) = b := by
  unfold decryptBC
  split
  · rename_i h
    have hl : b.length = 0 := by
      simpa [encryptBC, rangeMap_length] using h
    have hb : b = [] := List.length_eq_zero.mp hl
    subst hb
    rfl
  · unfold encryptBC
    simp only [rangeMap_rangeMap]
    apply rangeMap_id
    intro j x
    have hk : (E % 8 + j) % 8 = (E + j) % bcKey.length := by
      simp [bcKey, Nat.add_mod]
    rw [hk]
    generalize bcKey.getD ((E + j) % bcKey.length) 0 = k
    generalize E % 256 = o
    rw [Nat.xor_assoc (x ^^^ k ^^^ o) k o, Nat.xor_comm k o, ← Nat.xor_assoc (x ^^^ k ^^^ o) o k,
      Nat.xor_cancel_right, Nat.xor_cancel_right]

/-- The known vector of the spec: under offset 1 the bytes of "Hello" are encrypted to
`64 58 26 37 07`, and decrypting these gives "Hello" back. -/
theorem encryptBC_hello :
    encryptBC 0x00000001 [0x48, 0x65, 0x6C, 0x6C, 0x6F] = [0x64, 0x58, 0x26, 0x37, 0x07] ∧
    decryptBC 0x00000001 [0x64, 0x58, 0x26, 0x37, 0x07] = [0x48, 0x65, 0x6C, 0x6C, 0x6F] := by
  decide

/-! ### Little-endian arithmetic -/

theorem or_shiftLeft_eq_add (a b i : Nat) (ha : a < 2 ^ i) : a ||| b <<< i = a + 2 ^ i * b := by
  rw [Nat.shiftLeft_eq, Nat.or_comm, Nat.mul_comm b, ← Nat.mul_add_lt_is_or ha, Nat.add_comm]

theorem uint32_bytes (b0 b1 b2 b3 : Nat) (h0 : b0 < 256) (h1 : b1 < 256) (h2 : b2 < 256) :
    b0 ||| b1 <<< 8 ||| b2 <<< 16 ||| b3 <<< 24
      = b0 + 256 * b1 + 65536 * b2 + 16777216 * b3 := by
  rw [or_shiftLeft_eq_add b0 b1 8 (by omega)]
  rw [or_shiftLeft_eq_add _ b2 16 (by omega)]
  rw [or_shiftLeft_eq_add _ b3 24 (by omega)]
  omega

theorem le32_value (v : Nat) (hv : v < 2 ^ 32) :
    v % 256 ||| ((v >>> 8) % 256) <<< 8 ||| ((v >>> 16) % 256) <<< 16
      ||| ((v >>> 24) % 256) <<< 24 = v := by
  rw [uint32_bytes _ _ _ _ (by omega) (by omega) (by omega)]
  simp only [Nat.shiftRight_eq_div_pow]
  omega

theorem le16_value (v : Nat) (hv : v < 2 ^ 16) :
    v % 256 ||| ((v >>> 8) % 256) <<< 8 = v := by
  rw [or_shiftLeft_eq_add _ _ 8 (by omega)]
  simp only [Nat.shiftRight_eq_div_pow]
  omega

/-! ### header.go -/

theorem putUint32_eq (b : List Nat) (off v : Nat) (h : off + 4 ≤ b.length) :
    putUint32 b off v = b.take off ++ le32 v ++ b.drop (off + 4) := by
  induction off generalizing b with
  | zero =>
    match b, h with
    | b0 :: b1 :: b2 :: b3 :: b, _ => simp [putUint32, le32]
  | succ n ih =>
    match b, h with
    | x :: b, h =>
      have := ih b (by simpa using h)
      simp only [putUint32, List.set_cons_succ, List.take_succ_cons, List.cons_append,
        List.drop_succ_cons] at this ⊢
      rw [show n + 1 + 1 = (n + 1) + 1 from rfl, show n + 1 + 2 = (n + 2) + 1 from rfl,
        show n + 1 + 3 = (n + 3) + 1 from rfl]
      simp only [List.set_cons_succ, this]

theorem putUint16_eq (b : List Nat) (off v : Nat) (h : off + 2 ≤ b.length) :
    putUint16 b off v = b.take off ++ le16 v ++ b.drop (off + 2) := by
  induction off generalizing b with
  | zero =>
    match b, h with
    | b0 :: b1 :: b, _ => simp [putUint16, le16]
  | succ n ih =>
    match b, h with
    | x :: b, h =>
      have := ih b (by simpa using h)
      simp only [putUint16, List.set_cons_succ, List.take_succ_cons, List.cons_append,
        List.drop_succ_cons] at this ⊢
      rw [show n + 1 + 1 = (n + 1) + 1 from rfl]
      simp only [List.set_cons_succ, this]

/-- The 20 bytes that `writeHeader` emits for the classes with the short layout. -/
theorem writeHeader_20 (h : Header) (hc : h.Class = 0x6514 ∨ h.Class = 0x6614) :
    writeHeader h = le32 h.Magic ++ le32 h.MessageID ++ le32 h.BodyLength ++ le32 h.EncOffset
      ++ le16 h.Status ++ le16 h.Class := by
  unfold writeHeader
  rw [if_pos (by simpa [ClassLegacy20, ClassModern20] using hc)]
  simp only []
  rw [putUint32_eq _ 0 _ (by simp), putUint32_eq _ 4 _ (by simp [le32]),
    putUint32_eq _ 8 _ (by simp [le32]), putUint32_eq _ 12 _ (by simp [le32]),
    putUint16_eq _ 16 _ (by simp [le32]), putUint16_eq _ 18 _ (by simp [le32, le16])]
  simp [le32, le16]

/-- The 24 bytes that `writeHeader` emits for the classes with the long layout. -/
theorem writeHeader_24 (h : Header)
    (hc : h.Class = 0x6414 ∨ h.Class = 0x0000 ∨ h.Class = 0x1464) :
    writeHeader h = le32 h.Magic ++ le32 h.MessageID ++ le32 h.BodyLength ++ le32 h.EncOffset
      ++ le16 h.Status ++ le16 h.Class ++ le32 h.PayloadOffset := by
  unfold writeHeader
  rw [if_neg (by rcases hc with hc | hc | hc <;> simp [ClassLegacy20, ClassModern20, hc]),
    if_pos (by simpa [ClassModern24, ClassModern00, ClassModern24BE] using hc)]
  simp only []
  rw [putUint32_eq _ 0 _ (by simp), putUint32_eq _ 4 _ (by simp [le32]),
    putUint32_eq _ 8 _ (by simp [le32]), putUint32_eq _ 12 _ (by simp [le32]),
    putUint16_eq _ 16 _ (by simp [le32]), putUint16_eq _ 18 _ (by simp [le32, le16]),
    putUint32_eq _ 20 _ (by simp [le32, le16])]
  simp [le32, le16]

theorem getD_take_of_lt (r : List Nat) (n i : Nat) (h : i < n) :
    (r.take n).getD i 0 = r.getD i 0 := by
  simp [List.getD_eq_getElem?_getD, List.getElem?_take, h]

theorem uint32At_take (r : List Nat) (n off : Nat) (h : off + 4 ≤ n) :
    uint32At (r.take n) off = uint32At r off := by
  simp only [uint32At]
  rw [getD_take_of_lt _ _ _ (by omega), getD_take_of_lt _ _ _ (by omega),
    getD_take_of_lt _ _ _ (by omega), getD_take_of_lt _ _ _ (by omega)]

theorem uint16At_take (r : List Nat) (n off : Nat) (h : off + 2 ≤ n) :
    uint16At (r.take n) off = uint16At r off := by
  simp only [uint16At]
  rw [getD_take_of_lt _ _ _ (by omega), getD_take_of_lt _ _ _ (by omega)]

theorem fixedFields_take (r : List Nat) : fixedFields (r.take 20) = fixedFields r := by
  simp only [fixedFields]
  rw [uint32At_take _ _ _ (by omega), uint32At_take _ _ _ (by omega),
    uint32At_take _ _ _ (by omega), uint32At_take _ _ _ (by omega),
    uint16At_take _ _ _ (by omega), uint16At_take _ _ _ (by omega)]

/-- The stream ends inside the fixed 20 bytes: `parseHeader` fails. -/
theorem parseHeader_short (r : List Nat) (h : r.length < 20) :
    ∃ e, parseHeader r = (.error e, []) := by
  unfold parseHeader readFull
  rw [if_neg (by omega)]
  by_cases h0 : r.length = 0
  · exact ⟨.EOF, by simp [h0]⟩
  · exact ⟨.ErrUnexpectedEOF, by simp [h0]⟩

/-- What `parseHeader` does on a stream of at least 20 bytes. -/
theorem parseHeader_eq (r : List Nat) (h : 20 ≤ r.length) :
    parseHeader r =
      if (fixedFields r).Class = ClassModern00 ∨ (fixedFields r).Class = ClassModern24 then
        match readFull (r.drop 20) 4 with
        | (.error e, r2) => (.error e, r2)
        | (.ok po, r2) =>
          (.ok { fixedFields r with PayloadOffset := uint32At po 0, Is24 := true }, r2)
      else (.ok (fixedFields r), r.drop 20) := by
  have hf := fixedFields_take r
  simp only [fixedFields] at hf
  simp only [parseHeader, readFull, if_pos h, parseEncOffset, fixedFields]
  injection hf with h1 h2 h3 h4 h5 h6 h7 h8 h9
  simp only [parseEncOffset] at h4 h5 h6
  rw [h1, h2, h3, h7, h8, h9]

/-- C10: `writeHeader` emits exactly 20 bytes for the classes 0x6514 and 0x6614 and exactly 24
bytes for the classes 0x6414, 0x0000 and 0x1464: the little-endian fields magic, message_id,
body_length, enc_offset (4 bytes each), status, class (2 bytes each) and, in the long layout,
payload_offset (4 bytes); the legacy login header of the spec encodes to
`F0 DE BC 0A 01 00 00 00 00 00 00 00 01 00 00 01 12 DC 14 65`. -/
theorem writeHeader_layout :
    (∀ h : Header, h.Class = 0x6514 ∨ h.Class = 0x6614 →
      (writeHeader h).length = 20 ∧
      writeHeader h = le32 h.Magic ++ le32 h.MessageID ++ le32 h.BodyLength
        ++ le32 h.EncOffset ++ le16 h.Status ++ le16 h.Class) ∧
    (∀ h : Header, h.Class = 0x6414 ∨ h.Class = 0x0000 ∨ h.Class = 0x1464 →
      (writeHeader h).length = 24 ∧
      writeHeader h = le32 h.Magic ++ le32 h.MessageID ++ le32 h.BodyLength
        ++ le32 h.EncOffset ++ le16 h.Status ++ le16 h.Class ++ le32 h.PayloadOffset) ∧
    writeHeader { Magic := 0x0ABCDEF0, MessageID := 1, BodyLength := 0, Channel := 1,
                  Stream := 0, Handle := 1, Status := 0xDC12, Class := 0x6514,
                  EncOffset := 0x01000001, PayloadOffset := 0, Is24 := false }
      = [0xF0, 0xDE, 0xBC, 0x0A, 0x01, 0x00, 0x00, 0x00, 0x00, 0x00, 0x00, 0x00,
         0x01, 0x00, 0x00, 0x01, 0x12, 0xDC, 0x14, 0x65] := by
  refine ⟨fun h hc => ?_, fun h hc => ?_, by decide⟩
  · rw [writeHeader_20 h hc]
    exact ⟨by simp [le32, le16], rfl⟩
  · rw [writeHeader_24 h hc]
    exact ⟨by simp [le32, le16], rfl⟩

/-- Witness of `writeHeader_layout`: a start-stream header (class 0x6414) is written as 24
bytes with the payload offset last. -/
theorem writeHeader_layout_witness :
    writeHeader { Magic := 0x0ABCDEF0, MessageID := 3, BodyLength := 7, Channel := 0,
                  Stream := 0, Handle := 1, Status := 0, Class := 0x6414,
                  EncOffset := 0x01000000, PayloadOffset := 0x0102, Is24 := false }
      = [0xF0, 0xDE, 0xBC, 0x0A, 3, 0, 0, 0, 7, 0, 0, 0, 0, 0, 0, 1, 0, 0, 0x14, 0x64,
         2, 1, 0, 0] := by
  rw [(writeHeader_layout.2.1 _ (Or.inl rfl)).2]
  decide

/-- Round trip of the header codec on the four classes that `parseHeader` decodes with the
layout `writeHeader` used: the header read back carries every serialized field of `h`
(payload_offset only in the 24-byte layout), channel, stream and handle are re-derived from
enc_offset, and the bytes after the header are left in the stream. -/
theorem header_roundtrip (h : Header) (hwf : h.WF) (rest : List Nat)
    (hc : h.Class = 0x6514 ∨ h.Class = 0x6614 ∨ h.Class = 0x6414 ∨ h.Class = 0x0000) :
    parseHeader (writeHeader h ++ rest) =
      (.ok { h with
              Channel := h.EncOffset % 256
              Stream := (h.EncOffset >>> 8) % 256
              Handle := (h.EncOffset >>> 24) % 256
              PayloadOffset := if h.Class = 0x6414 ∨ h.Class = 0x0000 then h.PayloadOffset else 0
              Is24 := decide (h.Class = 0x6414 ∨ h.Class = 0x0000) }, rest) := by
  obtain ⟨h1, h2, h3, -, -, -, h7, h8, h9, h10⟩ := hwf
  have e1 := le32_value _ h1
  have e2 := le32_value _ h2
  have e3 := le32_value _ h3
  have e7 := le16_value _ h7
  have e8 := le16_value _ h8
  have e9 := le32_value _ h9
  have e10 := le32_value _ h10
  have h20 : h.Class = 0x6514 ∨ h.Class = 0x6614 ∨ (h.Class = 0x6414 ∨ h.Class = 0x0000) := hc
  rcases h20 with hc | hc | hc
  · rw [writeHeader_20 h (Or.inl hc), parseHeader_eq _ (by simp [le32, le16])]
    have hf : fixedFields (le32 h.Magic ++ le32 h.MessageID ++ le32 h.BodyLength
        ++ le32 h.EncOffset ++ le16 h.Status ++ le16 h.Class ++ rest)
        = { h with Channel := h.EncOffset % 256, Stream := (h.EncOffset >>> 8) % 256,
                   Handle := (h.EncOffset >>> 24) % 256, PayloadOffset := 0, Is24 := false } := by
      simp only [fixedFields, uint32At, uint16At, le32, le16, parseEncOffset, List.cons_append,
        List.nil_append, List.getD_cons_zero, List.getD_cons_succ, Nat.reduceAdd,
        e1, e2, e3, e7, e8, e9]
    rw [hf]
    simp [hc, ClassModern00, ClassModern24, le32, le16]
  · rw [writeHeader_20 h (Or.inr hc), parseHeader_eq _ (by simp [le32, le16])]
    have hf : fixedFields (le32 h.Magic ++ le32 h.MessageID ++ le32 h.BodyLength
        ++ le32 h.EncOffset ++ le16 h.Status ++ le16 h.Class ++ rest)
        = { h with Channel := h.EncOffset % 256, Stream := (h.EncOffset >>> 8) % 256,
                   Handle := (h.EncOffset >>> 24) % 256, PayloadOffset := 0, Is24 := false } := by
      simp only [fixedFields, uint32At, uint16At, le32, le16, parseEncOffset, List.cons_append,
        List.nil_append, List.getD_cons_zero, List.getD_cons_succ, Nat.reduceAdd,
        e1, e2, e3, e7, e8, e9]
    rw [hf]
    simp [hc, ClassModern00, ClassModern24, le32, le16]
  · rw [writeHeader_24 h (by rcases hc with hc | hc <;> simp [hc]),
      parseHeader_eq _ (by simp [le32, le16])]
    have hf : fixedFields (le32 h.Magic ++ le32 h.MessageID ++ le32 h.BodyLength
        ++ le32 h.EncOffset ++ le16 h.Status ++ le16 h.Class ++ le32 h.PayloadOffset ++ rest)
        = { h with Channel := h.EncOffset % 256, Stream := (h.EncOffset >>> 8) % 256,
                   Handle := (h.EncOffset >>> 24) % 256, PayloadOffset := 0, Is24 := false } := by
      simp only [fixedFields, uint32At, uint16At, le32, le16, parseEncOffset, List.cons_append,
        List.nil_append, List.getD_cons_zero, List.getD_cons_succ, Nat.reduceAdd,
        e1, e2, e3, e7, e8, e9]
    rw [hf]
    have hcl : h.Class = ClassModern00 ∨ h.Class = ClassModern24 := by
      rcases hc with hc | hc <;> simp [hc, ClassModern00, ClassModern24]
    simp only [hcl, if_true, hc, decide_True]
    simp [le32, le16, readFull, uint32At, e10]

/-- C2 (failing input): the header with class 0x1464 and payload_offset 32 is written as 24
bytes, but `parseHeader` reads it back with payload_offset 0 and leaves the four bytes of the
payload offset unread in the stream, so the round trip loses a serialized field. -/
theorem parseHeader_writeHeader_class1464 :
    parseHeader (writeHeader
        { Magic := 0x0ABCDEF0, MessageID := 3, BodyLength := 0, Channel := 0, Stream := 0,
          Handle := 1, Status := 200, Class := 0x1464, EncOffset := 0x01000000,
          PayloadOffset := 32, Is24 := false })
      = (.ok { Magic := 0x0ABCDEF0, MessageID := 3, BodyLength := 0, Channel := 0, Stream := 0,
               Handle := 1, Status := 200, Class := 0x1464, EncOffset := 0x01000000,
               PayloadOffset := 0, Is24 := false },
         [32, 0, 0, 0]) := by
  decide

/-- Header decode on the classes it recognises: with class 0x6414 or 0x0000 and at least 24
bytes, `parseHeader` consumes 24 bytes, payload_offset is the little-endian u32 in bytes
20..23 and is_24 is set; with class 0x6514 or 0x6614 and at least 20 bytes it consumes 20
bytes and is_24 stays false. -/
theorem parseHeader_layout (r : List Nat) :
    ((uint16At r 18 = 0x6414 ∨ uint16At r 18 = 0x0000) → 24 ≤ r.length →
      parseHeader r =
        (.ok { fixedFields r with PayloadOffset := uint32At r 20, Is24 := true }, r.drop 24)) ∧
    ((uint16At r 18 = 0x6514 ∨ uint16At r 18 = 0x6614) → 20 ≤ r.length →
      parseHeader r = (.ok (fixedFields r), r.drop 20) ∧ (fixedFields r).Is24 = false) := by
  constructor
  · intro hc hl
    rw [parseHeader_eq r (by omega)]
    have hcl : (fixedFields r).Class = ClassModern00 ∨ (fixedFields r).Class = ClassModern24 := by
      rcases hc with hc | hc <;> simp [fixedFields, hc, ClassModern00, ClassModern24]
    rw [if_pos hcl]
    have hd : 4 ≤ (r.drop 20).length := by simp; omega
    simp only [readFull, if_pos hd, List.drop_drop]
    have hu : uint32At (List.take 4 (List.drop 20 r)) 0 = uint32At r 20 := by
      rw [uint32At_take _ _ _ (by omega)]
      simp [uint32At, List.getD_eq_getElem?_getD, List.getElem?_drop]
    rw [hu]
  · intro hc hl
    rw [parseHeader_eq r hl]
    have hcl : ¬ ((fixedFields r).Class = ClassModern00 ∨ (fixedFields r).Class = ClassModern24) := by
      rcases hc with hc | hc <;> simp [fixedFields, hc, ClassModern00, ClassModern24]
    rw [if_neg hcl]
    exact ⟨rfl, rfl⟩

/-- C8 (failing input): for every stream of at least 24 bytes whose class field (bytes 18..19)
is 0x1464, `parseHeader` consumes only 20 bytes, leaves payload_offset 0 and is_24 false: the
class 0x1464 is not decoded with the 24-byte layout. -/
theorem parseHeader_class1464 (r : List Nat) (hl : 24 ≤ r.length) (hc : uint16At r 18 = 0x1464) :
    ∃ h, parseHeader r = (.ok h, r.drop 20) ∧ h.Is24 = false ∧ h.PayloadOffset = 0 ∧
      (r.drop 20).length = r.length - 20 := by
  refine ⟨fixedFields r, ?_, rfl, rfl, by simp⟩
  rw [parseHeader_eq r (by omega)]
  have hcl : ¬ ((fixedFields r).Class = ClassModern00 ∨ (fixedFields r).Class = ClassModern24) := by
    simp [fixedFields, hc, ClassModern00, ClassModern24]
  rw [if_neg hcl]

/-- Witness of `parseHeader_class1464`: a 24-byte header of class 0x1464 with payload offset
0x20, followed by one body byte. -/
theorem parseHeader_class1464_witness :
    ∃ h, parseHeader [0xF0, 0xDE, 0xBC, 0x0A, 3, 0, 0, 0, 1, 0, 0, 0, 0, 0, 0, 1, 0xC8, 0,
                      0x64, 0x14, 0x20, 0, 0, 0, 0xAA]
        = (.ok h, List.drop 20 [0xF0, 0xDE, 0xBC, 0x0A, 3, 0, 0, 0, 1, 0, 0, 0, 0, 0, 0, 1,
                                0xC8, 0, 0x64, 0x14, 0x20, 0, 0, 0, 0xAA]) ∧
      h.Is24 = false ∧ h.PayloadOffset = 0 ∧
      (List.drop 20 [0xF0, 0xDE, 0xBC, 0x0A, 3, 0, 0, 0, 1, 0, 0, 0, 0, 0, 0, 1,
                     0xC8, 0, 0x64, 0x14, 0x20, 0, 0, 0, 0xAA]).length
        = [0xF0, 0xDE, 0xBC, 0x0A, 3, 0, 0, 0, 1, 0, 0, 0, 0, 0, 0, 1,
           0xC8, 0, 0x64, 0x14, 0x20, 0, 0, 0, 0xAA].length - 20 :=
  parseHeader_class1464 _ (by decide) (by decide)

/-- C9 (counterexample): a 20-byte header whose magic is 0 and whose class is 0x1234 is
accepted by `parseHeader` and by `MessageReader.Next`: no error is returned. -/
theorem parseHeader_accepts_bad_magic_and_class :
    parseHeader [0, 0, 0, 0, 1, 0, 0, 0, 0, 0, 0, 0, 0, 0, 0, 0, 0, 0, 0x34, 0x12]
      = (.ok { Magic := 0, MessageID := 1, BodyLength := 0, Channel := 0, Stream := 0,
               Handle := 0, Status := 0, Class := 0x1234, EncOffset := 0, PayloadOffset := 0,
               Is24 := false }, []) ∧
    (0 : Nat) ≠ MagicLE ∧
    (0x1234 : Nat) ∉ [ClassLegacy20, ClassModern20, ClassModern24, ClassModern00, ClassModern24BE] ∧
    (MessageReader.Next
        [0, 0, 0, 0, 1, 0, 0, 0, 0, 0, 0, 0, 0, 0, 0, 0, 0, 0, 0x34, 0x12]).1
      = .ok { header := { Magic := 0, MessageID := 1, BodyLength := 0, Channel := 0,
                          Stream := 0, Handle := 0, Status := 0, Class := 0x1234,
                          EncOffset := 0, PayloadOffset := 0, Is24 := false },
              body := [] } := by
  decide

/-- The result of `parseHeader` by the length of the stream and the class field, as the code
computes it (the second read is made for the classes 0x0000 and 0x6414 only). -/
theorem parseHeader_result_by_length (r : List Nat) :
    ((r.length < 20 ∨ ((uint16At r 18 = 0x0000 ∨ uint16At r 18 = 0x6414) ∧ r.length < 24)) →
      ∃ e, (parseHeader r).1 = .error e ∧
        (MessageReader.Next r).1 = .error (.parseHeaderFailed e)) ∧
    (¬ (r.length < 20 ∨ ((uint16At r 18 = 0x0000 ∨ uint16At r 18 = 0x6414) ∧ r.length < 24)) →
      ∃ h, (parseHeader r).1 = .ok h ∧ h.Magic = uint32At r 0 ∧ h.Class = uint16At r 18) := by
  constructor
  · intro hs
    have key : ∃ e r1, parseHeader r = (.error e, r1) := by
      by_cases h20 : r.length < 20
      · obtain ⟨e, he⟩ := parseHeader_short r h20
        exact ⟨e, [], he⟩
      · rcases hs with hs | ⟨hc, h24⟩
        · exact absurd hs h20
        · rw [parseHeader_eq r (by omega)]
          have hcl : (fixedFields r).Class = ClassModern00 ∨
              (fixedFields r).Class = ClassModern24 := by
            rcases hc with hc | hc <;> simp [fixedFields, hc, ClassModern00, ClassModern24]
          rw [if_pos hcl]
          have hd : ¬ 4 ≤ (r.drop 20).length := by simp; omega
          simp only [readFull, if_neg hd]
          by_cases h0 : (List.drop 20 r).length = 0
          · exact ⟨.EOF, [], by rw [if_pos h0]⟩
          · exact ⟨.ErrUnexpectedEOF, [], by rw [if_neg h0]⟩
    obtain ⟨e, r1, he⟩ := key
    exact ⟨e, by rw [he], by simp [MessageReader.Next, he]⟩
  · intro hs
    have h20 : 20 ≤ r.length := by
      by_contra hlt
      exact hs (Or.inl (by omega))
    rw [parseHeader_eq r h20]
    by_cases hcl : (fixedFields r).Class = ClassModern00 ∨ (fixedFields r).Class = ClassModern24
    · rw [if_pos hcl]
      have h24 : 24 ≤ r.length := by
        by_contra hlt
        refine hs (Or.inr ⟨?_, by omega⟩)
        simpa [fixedFields, ClassModern00, ClassModern24] using hcl
      have hd : 4 ≤ (r.drop 20).length := by simp; omega
      simp only [readFull, if_pos hd]
      exact ⟨_, rfl, rfl, rfl⟩
    · rw [if_neg hcl]
      exact ⟨_, rfl, rfl, rfl⟩

/-- C9 (amended): `parseHeader` checks neither the magic nor the class. Whatever their values,
it returns a header whose magic and class are the values read from the wire whenever the
header is complete: the stream has at least 24 bytes, or at least 20 bytes and the decoded
class is none of the 24-byte classes 0x0000, 0x6414 and 0x1464. It returns an error, and
`MessageReader.Next` with it, when the stream ends before the header is complete: fewer than 20
bytes, or fewer than 24 bytes when the decoded class is 0x0000 or 0x6414. (Nothing is said
about a header of class 0x1464 cut between 20 and 23 bytes.) -/
theorem parseHeader_checks_only_length (r : List Nat) :
    ((r.length < 20 ∨ ((uint16At r 18 = 0x0000 ∨ uint16At r 18 = 0x6414) ∧ r.length < 24)) →
      ∃ e, (parseHeader r).1 = .error e ∧
        (MessageReader.Next r).1 = .error (.parseHeaderFailed e)) ∧
    ((24 ≤ r.length ∨
        (20 ≤ r.length ∧ uint16At r 18 ≠ 0x0000 ∧ uint16At r 18 ≠ 0x6414 ∧
          uint16At r 18 ≠ 0x1464)) →
      ∃ h, (parseHeader r).1 = .ok h ∧ h.Magic = uint32At r 0 ∧ h.Class = uint16At r 18) := by
  refine ⟨(parseHeader_result_by_length r).1, fun hs => ?_⟩
  apply (parseHeader_result_by_length r).2
  rintro (hlt | ⟨hc, hlt⟩)
  · rcases hs with hs | ⟨hs, -⟩ <;> omega
  · rcases hs with hs | ⟨-, h0, h1, -⟩
    · omega
    · rcases hc with hc | hc
      · exact h0 hc
      · exact h1 hc

/-- Witness of `parseHeader_checks_only_length`: a stream that ends after 22 bytes of a
class-0x6414 header is rejected, and a complete 20-byte header with magic 0 and class 0x1234
is accepted. -/
theorem parseHeader_checks_only_length_witness :
    (∃ e, (parseHeader [0xF0, 0xDE, 0xBC, 0x0A, 3, 0, 0, 0, 0, 0, 0, 0, 0, 0, 0, 1, 0xC8, 0,
                        0x14, 0x64, 0x20, 0]).1 = .error e ∧
      (MessageReader.Next [0xF0, 0xDE, 0xBC, 0x0A, 3, 0, 0, 0, 0, 0, 0, 0, 0, 0, 0, 1, 0xC8, 0,
                           0x14, 0x64, 0x20, 0]).1 = .error (.parseHeaderFailed e)) ∧
    (∃ h, (parseHeader [0, 0, 0, 0, 1, 0, 0, 0, 0, 0, 0, 0, 0, 0, 0, 0, 0, 0, 0x34, 0x12]).1
        = .ok h ∧
      h.Magic = uint32At [0, 0, 0, 0, 1, 0, 0, 0, 0, 0, 0, 0, 0, 0, 0, 0, 0, 0, 0x34, 0x12] 0 ∧
      h.Class = uint16At [0, 0, 0, 0, 1, 0, 0, 0, 0, 0, 0, 0, 0, 0, 0, 0, 0, 0, 0x34, 0x12] 18) :=
  ⟨(parseHeader_checks_only_length _).1 (Or.inr ⟨Or.inr (by decide), by decide⟩),
   (parseHeader_checks_only_length _).2
     (Or.inr ⟨by decide, by decide, by decide, by decide⟩)⟩

/-- C7: `MessageReader.Next` frames exactly one message. When `parseHeader` succeeds with
header `h` and at least `h.BodyLength` bytes follow, `Next` returns `h` with exactly the next
`h.BodyLength` bytes as body (the empty body when the length is 0) and leaves the stream right
after them; when fewer bytes follow, or the header itself is cut short (`parseHeader` fails,
as it does on every stream of fewer than 20 bytes), `Next` returns an error. -/
theorem MessageReader_Next_frames (r : List Nat) :
    (∀ h r1, parseHeader r = (.ok h, r1) → h.BodyLength ≤ r1.length →
      MessageReader.Next r =
        (.ok { header := h, body := r1.take h.BodyLength }, r1.drop h.BodyLength) ∧
      (r1.take h.BodyLength).length = h.BodyLength) ∧
    (∀ h r1, parseHeader r = (.ok h, r1) → r1.length < h.BodyLength →
      ∃ e, (MessageReader.Next r).1 = .error e) ∧
    (∀ e r1, parseHeader r = (.error e, r1) →
      MessageReader.Next r = (.error (.parseHeaderFailed e), r1)) ∧
    (r.length < 20 → ∃ e, (MessageReader.Next r).1 = .error e) := by
  refine ⟨fun h r1 hp hl => ?_, fun h r1 hp hl => ?_, fun e r1 hp => ?_, fun hs => ?_⟩
  · refine ⟨?_, by simp [hl]⟩
    by_cases hb : h.BodyLength > 0
    · simp [MessageReader.Next, hp, hb, readFull, hl]
    · have h0 : h.BodyLength = 0 := by omega
      simp [MessageReader.Next, hp, h0]
  · have hb : h.BodyLength > 0 := by omega
    have hn : ¬ h.BodyLength ≤ r1.length := by omega
    by_cases h0 : r1.length = 0
    · exact ⟨.readBody .EOF, by
        simp only [MessageReader.Next, hp, if_pos hb, readFull, if_neg hn, if_pos h0]⟩
    · exact ⟨.readBody .ErrUnexpectedEOF, by
        simp only [MessageReader.Next, hp, if_pos hb, readFull, if_neg hn, if_neg h0]⟩
  · simp [MessageReader.Next, hp]
  · obtain ⟨e, he⟩ := parseHeader_short r hs
    exact ⟨.parseHeaderFailed e, by simp [MessageReader.Next, he]⟩

/-- Witness of `MessageReader_Next_frames`: a 20-byte legacy header announcing a body of three
bytes, followed by five bytes; `Next` returns the first three and leaves the other two. -/
theorem MessageReader_Next_frames_witness :
    MessageReader.Next [0xF0, 0xDE, 0xBC, 0x0A, 1, 0, 0, 0, 3, 0, 0, 0, 0, 0, 0, 1, 0xC8, 0,
                        0x14, 0x65, 10, 11, 12, 13, 14]
      = (.ok { header := { Magic := 0x0ABCDEF0, MessageID := 1, BodyLength := 3, Channel := 0,
                           Stream := 0, Handle := 1, Status := 200, Class := 0x6514,
                           EncOffset := 0x01000000, PayloadOffset := 0, Is24 := false },
               body := List.take 3 [10, 11, 12, 13, 14] },
         List.drop 3 [10, 11, 12, 13, 14]) ∧
    (List.take 3 [10, 11, 12, 13, 14]).length = 3 :=
  (MessageReader_Next_frames _).1
    { Magic := 0x0ABCDEF0, MessageID := 1, BodyLength := 3, Channel := 0, Stream := 0,
      Handle := 1, Status := 200, Class := 0x6514, EncOffset := 0x01000000,
      PayloadOffset := 0, Is24 := false }
    [10, 11, 12, 13, 14] (by decide) (by decide)

/-! ### media.go: the sub-packet parsers -/

theorem ok_bind {ε α β : Type} (a : α) (f : α → Except ε β) : (Except.ok a >>= f) = f a := rfl
theorem error_bind {ε α β : Type} (e : ε) (f : α → Except ε β) :
    (Except.error e >>= f) = Except.error e := rfl

theorem Uint32_le32 (v : Nat) (hv : v < 2 ^ 32) : Uint32 (le32 v) = .ok v := by
  simp only [Uint32, le32]
  rw [le32_value v hv]

theorem Uint16_le16 (v : Nat) (hv : v < 2 ^ 16) : Uint16 (le16 v) = .ok v := by
  simp only [Uint16, le16]
  rw [le16_value v hv]

theorem le32_length (v : Nat) : (le32 v).length = 4 := rfl
theorem le16_length (v : Nat) : (le16 v).length = 2 := rfl

theorem Uint32_of_length (l : List Nat) (h : l.length = 4) : ∃ v, Uint32 l = .ok v := by
  match l, h with
  | [a, b, c, d], _ => exact ⟨_, rfl⟩

theorem parseIFrame_ok (codec ign skip payload extra : List Nat) (ps aux ms ts : Nat)
    (hcodec : codec.length = 4) (hps : ps < 2 ^ 32) (haux : aux < 2 ^ 32) (hms : ms < 2 ^ 32)
    (hts : ts < 2 ^ 32) (hign : ign.length = 4) (hskip : skip.length = aux - 4)
    (hpay : payload.length = ps) :
    parseIFrame (iFrameMagic ++ (codec ++ (le32 ps ++ (le32 aux ++ (le32 ms ++ (ign ++
        ((if 4 ≤ aux then le32 ts ++ skip else []) ++ (payload ++ extra))))))))
      = .ok (payload, ms, if 4 ≤ aux then ts else 0, codec) := by
  obtain ⟨u, hu⟩ := Uint32_of_length ign hign
  have hm : iFrameMagic.length = 4 := rfl
  simp only [parseIFrame, List.drop_left' hm, List.take_left' hcodec, List.drop_left' hcodec,
    List.take_left' (le32_length _), List.drop_left' (le32_length _), List.take_left' hign,
    List.drop_left' hign, Uint32_le32 _ hps, Uint32_le32 _ haux, Uint32_le32 _ hms, hu, ok_bind]
  by_cases h4 : 4 ≤ aux
  · have h4' : aux ≥ 4 := h4
    simp only [h4, h4', if_true, List.append_assoc, List.take_left' (le32_length _),
      List.drop_left' (le32_length _), Uint32_le32 _ hts, ok_bind]
    by_cases h5 : aux > 4
    · simp only [h5, if_true, List.drop_left' hskip, List.take_left' hpay, hpay]
      simp [pure, Except.pure, bind, Except.bind]
    · have h0 : skip = [] := List.length_eq_zero.mp (by omega)
      simp only [h5, if_false, h0, List.nil_append, List.take_left' hpay, hpay]
      simp [pure, Except.pure, bind, Except.bind]
  · have h4' : ¬ aux ≥ 4 := h4
    have h5 : ¬ aux > 4 := by omega
    simp only [h4, h4', h5, if_false, List.nil_append, List.take_left' hpay, hpay, ok_bind]
    simp [pure, Except.pure, bind, Except.bind]

theorem Uint32_short (l : List Nat) (h : l.length < 4) : Uint32 l = .error .panic := by
  match l, h with
  | [], _ => rfl
  | [_], _ => rfl
  | [_, _], _ => rfl
  | [_, _, _], _ => rfl

theorem Uint32_take4 (l : List Nat) (h : 4 ≤ l.length) : ∃ v, Uint32 (l.take 4) = .ok v :=
  Uint32_of_length _ (by simp [h])

theorem Uint16_of_length (l : List Nat) (h : l.length = 2) : ∃ v, Uint16 l = .ok v := by
  match l, h with
  | [a, b], _ => exact ⟨_, rfl⟩

theorem parsePFrame_ok (codec ign skip payload extra : List Nat) (ps aux ms : Nat)
    (hcodec : codec.length = 4) (hps : ps < 2 ^ 32) (haux : aux < 2 ^ 32) (hms : ms < 2 ^ 32)
    (hign : ign.length = 4) (hskip : skip.length = aux) (h4 : 4 ≤ aux)
    (hpay : payload.length = ps) :
    parsePFrame (pFrameMagic ++ (codec ++ (le32 ps ++ (le32 aux ++ (le32 ms ++ (ign ++
        (skip ++ (payload ++ extra))))))))
      = .ok (payload, ms, codec) := by
  obtain ⟨u, hu⟩ := Uint32_of_length ign hign
  obtain ⟨w, hw⟩ := Uint32_take4 skip (by omega)
  have hm : pFrameMagic.length = 4 := rfl
  have hsk : List.take 4 skip = List.take 4 (List.take aux (skip ++ (payload ++ extra))) := by
    rw [List.take_left' hskip]
  have hw' : ∃ v, Uint32 (List.take aux (skip ++ (payload ++ extra))) = .ok v := by
    rw [List.take_left' hskip]
    match skip, hskip, h4 with
    | a :: b :: c :: d :: t, _, _ => exact ⟨_, rfl⟩
  obtain ⟨v, hv⟩ := hw'
  simp only [parsePFrame, List.drop_left' hm, List.take_left' hcodec, List.drop_left' hcodec,
    List.take_left' (le32_length _), List.drop_left' (le32_length _), List.take_left' hign,
    List.drop_left' hign, Uint32_le32 _ hps, Uint32_le32 _ haux, Uint32_le32 _ hms, hu, hv,
    ok_bind, List.drop_left' hskip, List.take_left' hpay, hpay]
  simp [pure, Except.pure, bind, Except.bind]

theorem parsePFrame_panic (codec ign tail : List Nat) (ps aux ms : Nat)
    (hcodec : codec.length = 4) (hps : ps < 2 ^ 32) (haux : aux < 2 ^ 32) (hms : ms < 2 ^ 32)
    (hign : ign.length = 4) (h4 : aux < 4 ∨ tail.length < 4) :
    parsePFrame (pFrameMagic ++ (codec ++ (le32 ps ++ (le32 aux ++ (le32 ms ++ (ign ++ tail))))))
      = .error .panic := by
  obtain ⟨u, hu⟩ := Uint32_of_length ign hign
  have hm : pFrameMagic.length = 4 := rfl
  have hp : Uint32 (List.take aux tail) = .error .panic :=
    Uint32_short _ (by rw [List.length_take]; omega)
  simp only [parsePFrame, List.drop_left' hm, List.take_left' hcodec, List.drop_left' hcodec,
    List.take_left' (le32_length _), List.drop_left' (le32_length _), List.take_left' hign,
    List.drop_left' hign, Uint32_le32 _ hps, Uint32_le32 _ haux, Uint32_le32 _ hms, hu, hp,
    ok_bind, error_bind]

theorem parseAACFrame_ok (ign payload extra : List Nat) (ps : Nat)
    (hps : ps < 2 ^ 16) (hign : ign.length = 2) (hpay : payload.length = ps) :
    parseAACFrame (aacMagic ++ (le16 ps ++ (ign ++ (payload ++ extra)))) = .ok payload := by
  obtain ⟨u, hu⟩ := Uint16_of_length ign hign
  have hm : aacMagic.length = 4 := rfl
  simp only [parseAACFrame, List.drop_left' hm, List.take_left' (le16_length _),
    List.drop_left' (le16_length _), List.take_left' hign, List.drop_left' hign,
    Uint16_le16 _ hps, hu, ok_bind, List.take_left' hpay, hpay]
  simp [pure, Except.pure, bind, Except.bind]

/-- Truncated I-frame: the fixed part is complete, the additional header (when there is one)
holds at least its time stamp, and fewer than `ps` bytes follow the declared sub-header. -/
theorem parseIFrame_truncated (codec ign tail : List Nat) (ps aux ms : Nat)
    (hcodec : codec.length = 4) (hps : ps < 2 ^ 32) (haux : aux < 2 ^ 32) (hms : ms < 2 ^ 32)
    (hign : ign.length = 4) (h4 : aux < 4 ∨ 4 ≤ tail.length)
    (hshort : tail.length - (if 4 ≤ aux then aux else 0) < ps) :
    parseIFrame (iFrameMagic ++ (codec ++ (le32 ps ++ (le32 aux ++ (le32 ms ++ (ign ++ tail))))))
      = .error .ErrInvalidPayloadSize := by
  obtain ⟨u, hu⟩ := Uint32_of_length ign hign
  have hm : iFrameMagic.length = 4 := rfl
  simp only [parseIFrame, List.drop_left' hm, List.take_left' hcodec, List.drop_left' hcodec,
    List.take_left' (le32_length _), List.drop_left' (le32_length _), List.take_left' hign,
    List.drop_left' hign, Uint32_le32 _ hps, Uint32_le32 _ haux, Uint32_le32 _ hms, hu, ok_bind]
  by_cases h : 4 ≤ aux
  · have h' : aux ≥ 4 := h
    have htl : 4 ≤ tail.length := by omega
    obtain ⟨w, hw⟩ := Uint32_take4 tail htl
    rw [if_pos h] at hshort
    simp only [h', if_true, hw, ok_bind]
    by_cases h5 : aux > 4
    · have hne : (List.take ps (List.drop (aux - 4) (List.drop 4 tail))).length ≠ ps := by
        simp only [List.length_take, List.length_drop]; omega
      simp only [h5, if_true, hne]
      simp [pure, Except.pure, bind, Except.bind, throw, throwThe, MonadExceptOf.throw]
      omega
    · have hne : (List.take ps (List.drop 4 tail)).length ≠ ps := by
        simp only [List.length_take, List.length_drop]; omega
      simp only [h5, if_false, hne]
      simp [pure, Except.pure, bind, Except.bind, throw, throwThe, MonadExceptOf.throw]
      omega
  · have h' : ¬ aux ≥ 4 := h
    have h5 : ¬ aux > 4 := by omega
    rw [if_neg h] at hshort
    have hne : (List.take ps tail).length ≠ ps := by
      simp only [List.length_take]; omega
    simp only [h', h5, if_false, hne]
    simp [pure, Except.pure, bind, Except.bind, throw, throwThe, MonadExceptOf.throw]
    omega

theorem parsePFrame_truncated (codec ign tail : List Nat) (ps aux ms : Nat)
    (hcodec : codec.length = 4) (hps : ps < 2 ^ 32) (haux : aux < 2 ^ 32) (hms : ms < 2 ^ 32)
    (hign : ign.length = 4) (h4 : 4 ≤ aux) (ht : 4 ≤ tail.length)
    (hshort : tail.length - aux < ps) :
    parsePFrame (pFrameMagic ++ (codec ++ (le32 ps ++ (le32 aux ++ (le32 ms ++ (ign ++ tail))))))
      = .error .ErrInvalidPayloadSize := by
  obtain ⟨u, hu⟩ := Uint32_of_length ign hign
  have hm : pFrameMagic.length = 4 := rfl
  have hv : ∃ v, Uint32 (List.take aux tail) = .ok v := by
    match tail, ht with
    | a :: b :: c :: d :: t, _ =>
      match aux, h4 with
      | n + 4, _ => exact ⟨_, rfl⟩
  obtain ⟨v, hv⟩ := hv
  have hne : (List.take ps (List.drop aux tail)).length ≠ ps := by
    simp only [List.length_take, List.length_drop]; omega
  simp only [parsePFrame, List.drop_left' hm, List.take_left' hcodec, List.drop_left' hcodec,
    List.take_left' (le32_length _), List.drop_left' (le32_length _), List.take_left' hign,
    List.drop_left' hign, Uint32_le32 _ hps, Uint32_le32 _ haux, Uint32_le32 _ hms, hu, hv,
    ok_bind, hne]
  simp [pure, Except.pure, bind, Except.bind, throw, throwThe, MonadExceptOf.throw]
  omega

theorem parseAACFrame_truncated (ign tail : List Nat) (ps : Nat)
    (hps : ps < 2 ^ 16) (hign : ign.length = 2) (hshort : tail.length < ps) :
    parseAACFrame (aacMagic ++ (le16 ps ++ (ign ++ tail))) = .error .ErrInvalidPayloadSize := by
  obtain ⟨u, hu⟩ := Uint16_of_length ign hign
  have hm : aacMagic.length = 4 := rfl
  have hne : (List.take ps tail).length ≠ ps := by
    simp only [List.length_take]; omega
  simp only [parseAACFrame, List.drop_left' hm, List.take_left' (le16_length _),
    List.drop_left' (le16_length _), List.take_left' hign, List.drop_left' hign,
    Uint16_le16 _ hps, hu, ok_bind, hne]
  simp [pure, Except.pure, bind, Except.bind, throw, throwThe, MonadExceptOf.throw]
  omega

theorem NewBCMediaPacket_eq_parseIFrame (rest : List Nat) :
    NewBCMediaPacket (iFrameMagic ++ rest) =
      (parseIFrame (iFrameMagic ++ rest)).map (fun r =>
        { Codec := r.2.2.2, Data := r.1, Microseconds := r.2.1, Timestamp := r.2.2.1,
          info := none }) := by
  have hm : iFrameMagic.length = 4 := rfl
  have hl : ¬ (iFrameMagic ++ rest).length < 4 := by simp [hm]
  simp only [NewBCMediaPacket, if_neg hl, List.take_left' hm]
  rw [if_pos trivial]
  cases parseIFrame (iFrameMagic ++ rest) <;> rfl

theorem NewBCMediaPacket_eq_parsePFrame (rest : List Nat) :
    NewBCMediaPacket (pFrameMagic ++ rest) =
      (parsePFrame (pFrameMagic ++ rest)).map (fun r =>
        { Codec := r.2.2, Data := r.1, Microseconds := r.2.1, Timestamp := 0, info := none }) := by
  have hm : pFrameMagic.length = 4 := rfl
  have hl : ¬ (pFrameMagic ++ rest).length < 4 := by simp [hm]
  simp only [NewBCMediaPacket, if_neg hl, List.take_left' hm]
  rw [if_pos trivial]
  cases parsePFrame (pFrameMagic ++ rest) <;> rfl

theorem NewBCMediaPacket_eq_parseAACFrame (rest : List Nat) :
    NewBCMediaPacket (aacMagic ++ rest) =
      (parseAACFrame (aacMagic ++ rest)).map (fun p =>
        { Codec := codecAAC, Data := p, Microseconds := 0, Timestamp := 0, info := none }) := by
  have hm : aacMagic.length = 4 := rfl
  have hl : ¬ (aacMagic ++ rest).length < 4 := by simp [hm]
  simp only [NewBCMediaPacket, if_neg hl, List.take_left' hm]
  rw [if_pos trivial]
  cases parseAACFrame (aacMagic ++ rest) <;> rfl

/-- C5: an I-frame sub-packet laid out as magic `30 30 64 63`, codec (4 bytes), payload_size,
aux_hdr_len, microseconds (u32 LE each), 4 ignored bytes, then, only when aux_hdr_len >= 4, a
u32 LE time stamp and aux_hdr_len - 4 skipped bytes, then payload_size bytes of payload (and
possibly more bytes) is parsed by `NewBCMediaPacket` into the packet with the codec bytes as
read, the microseconds, the time stamp (0 when aux_hdr_len < 4) and exactly the payload bytes
as data. -/
theorem NewBCMediaPacket_iFrame (codec ign skip payload extra : List Nat) (ps aux ms ts : Nat)
    (hcodec : codec.length = 4) (hps : ps < 2 ^ 32) (haux : aux < 2 ^ 32) (hms : ms < 2 ^ 32)
    (hts : ts < 2 ^ 32) (hign : ign.length = 4) (hskip : skip.length = aux - 4)
    (hpay : payload.length = ps) :
    NewBCMediaPacket ([0x30, 0x30, 0x64, 0x63] ++ codec ++ le32 ps ++ le32 aux ++ le32 ms ++ ign
        ++ (if 4 ≤ aux then le32 ts ++ skip else []) ++ payload ++ extra)
      = .ok { Codec := codec, Data := payload, Microseconds := ms,
              Timestamp := if 4 ≤ aux then ts else 0, info := none } := by
  have hmg : ([0x30, 0x30, 0x64, 0x63] : List Nat) = iFrameMagic := rfl
  rw [hmg]
  simp only [List.append_assoc]
  rw [NewBCMediaPacket_eq_parseIFrame,
    parseIFrame_ok codec ign skip payload extra ps aux ms ts hcodec hps haux hms hts hign hskip
      hpay]
  rfl

/-- Witness of `NewBCMediaPacket_iFrame`: an H264 I-frame with a six-byte additional header
and a payload of three bytes, followed by one more byte. -/
theorem NewBCMediaPacket_iFrame_witness :
    NewBCMediaPacket ([0x30, 0x30, 0x64, 0x63] ++ codecH264 ++ le32 3 ++ le32 6 ++ le32 7
        ++ [0, 0, 0, 0] ++ (if 4 ≤ 6 then le32 9 ++ [5, 5] else []) ++ [1, 2, 3] ++ [4])
      = .ok { Codec := codecH264, Data := [1, 2, 3], Microseconds := 7,
              Timestamp := if 4 ≤ 6 then 9 else 0, info := none } :=
  NewBCMediaPacket_iFrame codecH264 [0, 0, 0, 0] [5, 5] [1, 2, 3] [4] 3 6 7 9 (by decide)
    (by decide) (by decide) (by decide) (by decide) (by decide) (by decide) (by decide)

/-- P-frame parse where it works: with an additional header of at least four bytes the
payload is taken at offset 24 + aux_hdr_len. -/
theorem NewBCMediaPacket_pFrame_long_aux (codec ign skip payload extra : List Nat) (ps aux ms : Nat)
    (hcodec : codec.length = 4) (hps : ps < 2 ^ 32) (haux : aux < 2 ^ 32) (hms : ms < 2 ^ 32)
    (hign : ign.length = 4) (hskip : skip.length = aux) (h4 : 4 ≤ aux)
    (hpay : payload.length = ps) :
    NewBCMediaPacket ([0x30, 0x31, 0x64, 0x63] ++ codec ++ le32 ps ++ le32 aux ++ le32 ms ++ ign
        ++ skip ++ payload ++ extra)
      = .ok { Codec := codec, Data := payload, Microseconds := ms, Timestamp := 0,
              info := none } := by
  have hmg : ([0x30, 0x31, 0x64, 0x63] : List Nat) = pFrameMagic := rfl
  rw [hmg]
  simp only [List.append_assoc]
  rw [NewBCMediaPacket_eq_parsePFrame,
    parsePFrame_ok codec ign skip payload extra ps aux ms hcodec hps haux hms hign hskip h4 hpay]
  rfl

/-- C6 (failing inputs): a P-frame sub-packet laid out as the claim says, complete with its
payload, whose aux_hdr_len is 0, 1, 2 or 3 makes `NewBCMediaPacket` panic: the skipped
additional header is passed to `Uint32`, which needs four bytes. -/
theorem NewBCMediaPacket_pFrame_small_aux (codec ign skip payload extra : List Nat)
    (ps aux ms : Nat)
    (hcodec : codec.length = 4) (hps : ps < 2 ^ 32) (haux : aux < 4) (hms : ms < 2 ^ 32)
    (hign : ign.length = 4) (hskip : skip.length = aux) :
    payload.length = ps →
    NewBCMediaPacket ([0x30, 0x31, 0x64, 0x63] ++ codec ++ le32 ps ++ le32 aux ++ le32 ms ++ ign
        ++ skip ++ payload ++ extra)
      = .error .panic := by
  intro _
  have hmg : ([0x30, 0x31, 0x64, 0x63] : List Nat) = pFrameMagic := rfl
  rw [hmg]
  simp only [List.append_assoc]
  rw [NewBCMediaPacket_eq_parsePFrame,
    parsePFrame_panic codec ign _ ps aux ms hcodec hps (by omega) hms hign (Or.inl haux)]
  rfl

/-- Witness of `NewBCMediaPacket_pFrame_small_aux`: an H264 P-frame without additional header
and with a payload of one byte. -/
theorem NewBCMediaPacket_pFrame_small_aux_witness :
    NewBCMediaPacket ([0x30, 0x31, 0x64, 0x63] ++ codecH264 ++ le32 1 ++ le32 0 ++ le32 7
        ++ [0, 0, 0, 0] ++ [] ++ [0xAA] ++ [])
      = .error .panic :=
  NewBCMediaPacket_pFrame_small_aux codecH264 [0, 0, 0, 0] [] [0xAA] [] 1 0 7 (by decide)
    (by decide) (by decide) (by decide) (by decide) (by decide) (by decide)

/-- C4 (failing inputs): two truncated sub-packets on which `NewBCMediaPacket` panics instead
of returning `ErrInvalidPayloadSize`: a P-frame without additional header that declares a
payload of 100 bytes and carries 3, and an I-frame that declares an additional header of four
bytes and a payload of 100 bytes and carries two bytes after the fixed 24. -/
theorem NewBCMediaPacket_panics_on_cut_frames :
    NewBCMediaPacket ([0x30, 0x31, 0x64, 0x63] ++ codecH264 ++ le32 100 ++ le32 0 ++ le32 7
        ++ [0, 0, 0, 0] ++ [1, 2, 3]) = .error .panic ∧
    NewBCMediaPacket ([0x30, 0x30, 0x64, 0x63] ++ codecH264 ++ le32 100 ++ le32 4 ++ le32 7
        ++ [0, 0, 0, 0] ++ [1, 2]) = .error .panic := by
  decide

/-- Truncated sub-packets on which the parser does not panic: the fixed part of the sub-header
is present, the additional header (I-frame with aux_hdr_len >= 4, P-frame with
aux_hdr_len >= 4) has at least four of its bytes, and fewer than payload_size bytes remain
after the declared sub-header. `NewBCMediaPacket` returns `ErrInvalidPayloadSize`. -/
theorem NewBCMediaPacket_short_payload (codec ign ign2 tail : List Nat) (ps aux ms : Nat)
    (hcodec : codec.length = 4) (hps : ps < 2 ^ 32) (haux : aux < 2 ^ 32) (hms : ms < 2 ^ 32)
    (hign : ign.length = 4) (hign2 : ign2.length = 2) :
    ((aux < 4 ∨ 4 ≤ tail.length) → tail.length - (if 4 ≤ aux then aux else 0) < ps →
      NewBCMediaPacket (iFrameMagic ++ codec ++ le32 ps ++ le32 aux ++ le32 ms ++ ign ++ tail)
        = .error .ErrInvalidPayloadSize) ∧
    (4 ≤ aux → 4 ≤ tail.length → tail.length - aux < ps →
      NewBCMediaPacket (pFrameMagic ++ codec ++ le32 ps ++ le32 aux ++ le32 ms ++ ign ++ tail)
        = .error .ErrInvalidPayloadSize) ∧
    (ps < 2 ^ 16 → tail.length < ps →
      NewBCMediaPacket (aacMagic ++ le16 ps ++ ign2 ++ tail) = .error .ErrInvalidPayloadSize) := by
  refine ⟨fun h4 hs => ?_, fun h4 ht hs => ?_, fun hp hs => ?_⟩
  · simp only [List.append_assoc]
    rw [NewBCMediaPacket_eq_parseIFrame,
      parseIFrame_truncated codec ign tail ps aux ms hcodec hps haux hms hign h4 hs]
    rfl
  · simp only [List.append_assoc]
    rw [NewBCMediaPacket_eq_parsePFrame,
      parsePFrame_truncated codec ign tail ps aux ms hcodec hps haux hms hign h4 ht hs]
    rfl
  · simp only [List.append_assoc]
    rw [NewBCMediaPacket_eq_parseAACFrame, parseAACFrame_truncated ign2 tail ps hp hign2 hs]
    rfl

/-! ### media.go: the stream reader -/

/-- One iteration of the loop on a media message that is a continuation (`BinaryData` not 1)
while the buffer holds `cur`. -/
theorem Next_step_continuation (env : Env) (fuel : Nat) (cur r r1 seg : List Nat) (m : BCMsg)
    (e : Extension) (hread : MessageReader.Next r = (.ok m, r1)) (hm : isMedia m.header)
    (hd : decodeSegment env m = .ok (e, seg)) (hb : e.BinaryData ≠ 1) :
    BCStreamReader.Next env (fuel + 1) (some cur) r =
      match NewBCMediaPacket (cur ++ seg) with
      | .error .ErrInvalidPayloadSize => BCStreamReader.Next env fuel (some (cur ++ seg)) r1
      | .error .panic => .abort .panic
      | .ok p => .packet p r1 := by
  obtain ⟨h1, h2, h3⟩ := hm
  simp only [BCStreamReader.Next, hread, h1, h2, h3, ne_eq, not_true_eq_false, if_false, hd,
    if_neg hb]

/-- One iteration of the loop on a media message that starts a frame (`BinaryData` is 1). -/
theorem Next_step_head (env : Env) (fuel : Nat) (current : Option (List Nat))
    (r r1 seg : List Nat) (m : BCMsg)
    (e : Extension) (hread : MessageReader.Next r = (.ok m, r1)) (hm : isMedia m.header)
    (hd : decodeSegment env m = .ok (e, seg)) (hb : e.BinaryData = 1) :
    BCStreamReader.Next env (fuel + 1) current r =
      match NewBCMediaPacket seg with
      | .error .ErrInvalidPayloadSize => BCStreamReader.Next env fuel (some seg) r1
      | .error .panic => .abort .panic
      | .ok p => .packet p r1 := by
  obtain ⟨h1, h2, h3⟩ := hm
  simp only [BCStreamReader.Next, hread, h1, h2, h3, ne_eq, not_true_eq_false, if_false, hd,
    if_pos hb]

theorem Next_continuations (env : Env) (p : BCMediaPacket) (rest : List Nat) :
    ∀ (cont : List (BCMsg × List Nat)) (cur r : List Nat) (extra : Nat),
      cont ≠ [] →
      (∀ c ∈ cont, isMedia c.1.header ∧
        ∃ e, decodeSegment env c.1 = .ok (e, c.2) ∧ e.BinaryData = 0) →
      (∀ j, 1 ≤ j → j < cont.length →
        NewBCMediaPacket (cur ++ ((cont.take j).map Prod.snd).flatten)
          = .error .ErrInvalidPayloadSize) →
      NewBCMediaPacket (cur ++ (cont.map Prod.snd).flatten) = .ok p →
      Delivers r (cont.map Prod.fst) rest →
      BCStreamReader.Next env (extra + cont.length) (some cur) r = .packet p rest := by
  intro cont
  induction cont with
  | nil => intro cur r extra hne; exact absurd rfl hne
  | cons c tl ih =>
    intro cur r extra _ hcont hpart hfull hr
    obtain ⟨r1, hread, hr1⟩ := hr
    obtain ⟨hm, e, hd, hb⟩ := hcont c (List.mem_cons_self _ _)
    have hb1 : e.BinaryData ≠ 1 := by rw [hb]; decide
    have hstep := Next_step_continuation env (extra + tl.length) cur r r1 c.2 c.1 e hread hm hd hb1
    rw [List.length_cons, ← Nat.add_assoc, hstep]
    cases tl with
    | nil =>
      have hp : NewBCMediaPacket (cur ++ c.2) = .ok p := by simpa using hfull
      have hrest : r1 = rest := hr1
      rw [hp, hrest]
    | cons c2 tl2 =>
      have hp : NewBCMediaPacket (cur ++ c.2) = .error .ErrInvalidPayloadSize := by
        have := hpart 1 (Nat.le_refl 1) (by simp)
        simpa using this
      rw [hp]
      refine ih (cur ++ c.2) r1 extra (by simp) (fun c' hc' => hcont c' (List.mem_cons_of_mem _ hc'))
        (fun j hj1 hj2 => ?_) ?_ hr1
      · have := hpart (j + 1) (by omega) (by simpa using hj2)
        simpa [List.append_assoc] using this
      · simpa [List.append_assoc] using hfull

/-- C3: reassembly. Let the stream hold a media message (status 200, message_id 3, handle 1)
whose segment `s0` has binary_data 1, followed by `k >= 1` media messages with binary_data 0
and segments `s1..sk`, such that `NewBCMediaPacket` fails with `ErrInvalidPayloadSize` on
every concatenation `s0..sj` with `j < k` and returns the packet `p` on `s0..sk`. Then one call
of `BCStreamReader.Next` (any iteration budget of at least `k + 1`) returns exactly `p` and
leaves the stream right after these `k + 1` messages. -/
theorem BCStreamReader_Next_reassembles (env : Env) (m0 : BCMsg) (e0 : Extension)
    (s0 : List Nat) (cont : List (BCMsg × List Nat)) (p : BCMediaPacket) (r rest : List Nat)
    (hk : 1 ≤ cont.length)
    (hm0 : isMedia m0.header) (hd0 : decodeSegment env m0 = .ok (e0, s0))
    (hb0 : e0.BinaryData = 1)
    (hcont : ∀ c ∈ cont, isMedia c.1.header ∧
      ∃ e, decodeSegment env c.1 = .ok (e, c.2) ∧ e.BinaryData = 0)
    (hpart : ∀ j, j < cont.length →
      NewBCMediaPacket (s0 ++ ((cont.take j).map Prod.snd).flatten)
        = .error .ErrInvalidPayloadSize)
    (hfull : NewBCMediaPacket (s0 ++ (cont.map Prod.snd).flatten) = .ok p)
    (hr : Delivers r (m0 :: cont.map Prod.fst) rest) :
    ∀ fuel, cont.length + 1 ≤ fuel → BCStreamReader.Next env fuel none r = .packet p rest := by
  intro fuel hfuel
  obtain ⟨r1, hread, hr1⟩ := hr
  obtain ⟨extra, rfl⟩ : ∃ extra, fuel = (extra + cont.length) + 1 := ⟨fuel - (cont.length + 1), by omega⟩
  rw [Next_step_head env _ none r r1 s0 m0 e0 hread hm0 hd0 hb0]
  have h0 : NewBCMediaPacket s0 = .error .ErrInvalidPayloadSize := by
    have := hpart 0 (by omega)
    simpa using this
  rw [h0]
  exact Next_continuations env p rest cont s0 r1 extra (by intro h; simp [h] at hk) hcont
    (fun j _ hj => hpart j hj) hfull hr1

set_option maxRecDepth 100000 in
/-- Witness of `BCStreamReader_Next_reassembles`, the I-frame of the spec: the head segment
declares a payload of 100 bytes and carries 60, the continuation carries the other 40; one call
of `Next` reads both messages and returns the H264 packet with the 100 bytes. -/
theorem BCStreamReader_Next_reassembles_witness :
    BCStreamReader.Next plainEnv 2 none twoSegmentStream
      = .packet { Codec := codecH264,
                  Data := List.replicate 60 0xAB ++ List.replicate 40 0xCD,
                  Microseconds := 7, Timestamp := 0, info := none } [0xF0] ∧
    (List.replicate 60 0xAB ++ List.replicate 40 0xCD).length = 100 :=
  ⟨BCStreamReader_Next_reassembles plainEnv headMessage
      { EncryptLen := 0, BinaryData := 1, CheckPos := 0, CheckValue := 0 } headSegment
      [(tailMessage, List.replicate 40 0xCD)] _ twoSegmentStream [0xF0]
      (by decide) (by decide) (by decide) (by decide)
      (by
        intro c hc
        obtain rfl : c = (tailMessage, List.replicate 40 0xCD) := by simpa using hc
        exact ⟨by decide, { EncryptLen := 0, BinaryData := 0, CheckPos := 0, CheckValue := 0 },
          by decide, by decide⟩)
      (by
        intro j hj
        obtain rfl : j = 0 := by simpa using hj
        decide)
      (by decide)
      ⟨writeHeader tailMessage.header ++ tailMessage.body ++ [0xF0], by decide, [0xF0], by decide, rfl⟩
      2 (by decide),
   by decide⟩

/-! ### Second part: cipher reference, enc_offset, send paths, reader steps -/

theorem rangeMap_getElem? (f : Nat → Nat → Nat) (s : Nat) (l : List Nat) (i : Nat) :
    (rangeMap f s l)[i]? = l[i]?.map (f (s + i)) := by
  induction l generalizing s i with
  | nil => simp [rangeMap]
  | cons b bs ih =>
    cases i with
    | zero => simp [rangeMap]
    | succ n =>
      simp only [rangeMap, List.getElem?_cons_succ, ih]
      rw [show s + 1 + n = s + (n + 1) by omega]

theorem rangeMap_congr (f g : Nat → Nat → Nat) (h : ∀ i x, f i x = g i x) (s : Nat)
    (l : List Nat) : rangeMap f s l = rangeMap g s l := by
  induction l generalizing s with
  | nil => rfl
  | cons b bs ih => simp [rangeMap, ih, h]

theorem encryptBC_eq_decryptBC (E : Nat) (b : List Nat) : encryptBC E b = decryptBC E b := by
  unfold decryptBC encryptBC
  split
  · rename_i h
    rw [List.length_eq_zero.mp h]; rfl
  · apply rangeMap_congr
    intro i x
    have hk : (E + i) % bcKey.length = (E % 8 + i) % 8 := by simp [bcKey, Nat.add_mod]
    simp only [hk]

/-- C12: the BC XOR cipher against its reference definition. For every offset `E` and byte
string `b`, `encryptBC` and `decryptBC` return the same output, of the length of `b` (empty for
the empty input), and byte `i` of the output is `b[i] XOR K[(E + i) mod 8] XOR (E AND 0xFF)`
with `K` the fixed key `bcKey`. -/
theorem bc_cipher_reference (E : Nat) (b : List Nat) :
    encryptBC E b = decryptBC E b ∧
    (encryptBC E b).length = b.length ∧
    encryptBC E [] = [] ∧ decryptBC E [] = [] ∧
    ∀ i, (encryptBC E b)[i]? = b[i]?.map (bcSpecByte E i) := by
  refine ⟨encryptBC_eq_decryptBC E b, by simp [encryptBC, rangeMap_length], rfl, rfl, ?_⟩
  intro i
  unfold encryptBC
  rw [rangeMap_getElem?]
  have h255 : E &&& 0xFF = E % 256 := Nat.and_pow_two_sub_one_eq_mod E 8
  cases b[i]? with
  | none => rfl
  | some x =>
    simp only [Option.map_some', bcSpecByte, h255, Nat.zero_add]
    rfl

/-- C13: for all channel, stream and handle values in `[0, 255]`,
`parseEncOffset (buildEncOffset c s h) = (c, s, h)`. -/
theorem parseEncOffset_buildEncOffset (c s h : Nat) (hc : c ≤ 255) (hs : s ≤ 255) (hh : h ≤ 255) :
    parseEncOffset (buildEncOffset c s h) = (c, s, h) := by
  have e : buildEncOffset c s h = c + 256 * s + 16777216 * h := by
    unfold buildEncOffset
    rw [Nat.zero_shiftLeft, Nat.or_zero, or_shiftLeft_eq_add c s 8 (by omega),
      or_shiftLeft_eq_add _ h 24 (by omega)]
    omega
  rw [e]
  simp only [parseEncOffset, Nat.shiftRight_eq_div_pow, Prod.mk.injEq]
  omega

/-- Witness of `parseEncOffset_buildEncOffset`: channel 1, stream 2, handle 255. -/
theorem parseEncOffset_buildEncOffset_witness :
    parseEncOffset (buildEncOffset 1 2 255) = (1, 2, 255) :=
  parseEncOffset_buildEncOffset 1 2 255 (by decide) (by decide) (by decide)


theorem readFull_error_rest (r : List Nat) (n : Nat) (e : IoError)
    (h : (readFull r n).1 = .error e) : (readFull r n).2 = [] := by
  unfold readFull at h ⊢
  split
  · rename_i hn; rw [if_pos hn] at h; cases h
  · split <;> rfl

theorem parseHeader_error_rest (r : List Nat) (e : IoError)
    (h : (parseHeader r).1 = .error e) : (parseHeader r).2 = [] := by
  by_cases h20 : 20 ≤ r.length
  · rw [parseHeader_eq r h20] at h ⊢
    split at h
    · rename_i hc
      rw [if_pos hc]
      have key := readFull_error_rest (List.drop 20 r) 4
      rcases hrf : readFull (List.drop 20 r) 4 with ⟨res, r2⟩
      rw [hrf] at h key
      cases res with
      | error e2 => simpa using key e2 rfl
      | ok po => cases h
    · cases h
  · obtain ⟨e2, he2⟩ := parseHeader_short r (by omega)
    rw [he2]

/-- After a failed read nothing is left in the stream. -/
theorem MessageReader_Next_error_rest (r : List Nat) (e : ReadError)
    (h : (MessageReader.Next r).1 = .error e) : (MessageReader.Next r).2 = [] := by
  have hp := parseHeader_error_rest r
  unfold MessageReader.Next at h ⊢
  rcases hph : parseHeader r with ⟨res, r1⟩
  rw [hph] at hp h
  cases res with
  | error e1 => simpa using hp e1 rfl
  | ok hd =>
    simp only at h ⊢
    split
    · rename_i hb
      rw [if_pos hb] at h
      have key := readFull_error_rest r1 hd.BodyLength
      rcases hrf : readFull r1 hd.BodyLength with ⟨res2, r2⟩
      rw [hrf] at h key
      cases res2 with
      | error e2 => simpa using key e2 rfl
      | ok body => cases h
    · rename_i hb
      rw [if_neg hb] at h
      cases h

/-- One iteration of the loop when the read fails: the error is dropped and the loop goes on
with the same buffer. -/
theorem Next_step_read_error (env : Env) (fuel : Nat) (current : Option (List Nat))
    (r : List Nat) (e : ReadError) (h : (MessageReader.Next r).1 = .error e) :
    BCStreamReader.Next env (fuel + 1) current r =
      BCStreamReader.Next env fuel current (MessageReader.Next r).2 := by
  simp [BCStreamReader.Next, h, BCMsg.zero, Header.zero]

/-- On the exhausted stream the loop never ends. -/
theorem Next_exhausted (env : Env) (fuel : Nat) (current : Option (List Nat)) :
    BCStreamReader.Next env fuel current [] = .running := by
  induction fuel with
  | zero => rfl
  | succ n ih =>
    have h : (MessageReader.Next []).1 = .error (.parseHeaderFailed .EOF) := by decide
    rw [Next_step_read_error env n current [] _ h]
    have h2 : (MessageReader.Next []).2 = [] := by decide
    rw [h2, ih]

/-- C11 (failing inputs): on every stream on which the read of `readHeaderAndBody` fails,
`BCStreamReader.Next` drops the error and enters the next iteration of its loop, which reads
again from what is left of the stream; whatever the iteration budget, the call has not
returned (the outcome is `running`, never a packet and never an abort). -/
theorem BCStreamReader_Next_ignores_read_error (env : Env) (r : List Nat) (e : ReadError)
    (h : (MessageReader.Next r).1 = .error e) :
    ∀ (fuel : Nat) (current : Option (List Nat)),
      BCStreamReader.Next env (fuel + 1) current r
        = BCStreamReader.Next env fuel current (MessageReader.Next r).2 ∧
      BCStreamReader.Next env fuel current r = .running := by
  intro fuel current
  refine ⟨Next_step_read_error env fuel current r e h, ?_⟩
  cases fuel with
  | zero => rfl
  | succ n =>
    rw [Next_step_read_error env n current r e h, MessageReader_Next_error_rest r e h]
    exact Next_exhausted env n current

/-- Witness of `BCStreamReader_Next_ignores_read_error`: on the closed connection (the empty
stream) a thousand iterations have not ended the call. -/
theorem BCStreamReader_Next_ignores_read_error_witness :
    BCStreamReader.Next plainEnv (1000 + 1) none []
        = BCStreamReader.Next plainEnv 1000 none (MessageReader.Next []).2 ∧
      BCStreamReader.Next plainEnv 1000 none [] = .running :=
  BCStreamReader_Next_ignores_read_error plainEnv [] (.parseHeaderFailed .EOF) (by decide) 1000 none

/-- One iteration of the loop on a message that the filter rejects. -/
theorem Next_step_skip (env : Env) (fuel : Nat) (current : Option (List Nat))
    (r r1 : List Nat) (m : BCMsg) (hread : MessageReader.Next r = (.ok m, r1))
    (hm : ¬ isMedia m.header) :
    BCStreamReader.Next env (fuel + 1) current r = BCStreamReader.Next env fuel current r1 := by
  simp only [isMedia, not_and_or] at hm
  simp only [BCStreamReader.Next, hread]
  by_cases h1 : m.header.Status = 200
  · by_cases h2 : m.header.MessageID = 3
    · have h3 : m.header.Handle ≠ 1 := by
        rcases hm with hm | hm | hm
        · exact absurd h1 hm
        · exact absurd h2 hm
        · exact hm
      simp [h1, h2, h3]
    · simp [h1, h2]
  · simp [h1]

/-- One iteration of the loop on a continuation while the buffer is empty. -/
theorem Next_step_stray (env : Env) (fuel : Nat) (r r1 seg : List Nat) (m : BCMsg)
    (e : Extension) (hread : MessageReader.Next r = (.ok m, r1)) (hm : isMedia m.header)
    (hd : decodeSegment env m = .ok (e, seg)) (hb : e.BinaryData ≠ 1) :
    BCStreamReader.Next env (fuel + 1) none r = BCStreamReader.Next env fuel none r1 := by
  obtain ⟨h1, h2, h3⟩ := hm
  simp only [BCStreamReader.Next, hread, h1, h2, h3, ne_eq, not_true_eq_false, if_false, hd,
    if_neg hb]


theorem cfbXORKeyStream_length (blk : List Nat → List Nat) (d : Bool) (src : List Nat) :
    ∀ (out : List Nat) (used : Nat) (next : List Nat),
      (cfbXORKeyStream blk d out used next src).length = src.length := by
  induction src with
  | nil => intro out used next; rfl
  | cons s src ih => intro out used next; simp [cfbXORKeyStream, ih]

theorem encryptAES_ok (blk : List Nat → List Nat → List Nat) (key body : List Nat)
    (hk : validKeySize key) :
    ∃ c, encryptAES blk key body = .ok c ∧ c.length = body.length := by
  refine ⟨_, by rw [encryptAES, if_pos hk], cfbXORKeyStream_length _ _ _ _ _ _⟩

theorem buildEncOffset_eq (c s h : Nat) (hc : c ≤ 255) (hs : s ≤ 255) (hh : h ≤ 255) :
    buildEncOffset c s h = c + 256 * s + 16777216 * h := by
  unfold buildEncOffset
  rw [Nat.zero_shiftLeft, Nat.or_zero, or_shiftLeft_eq_add c s 8 (by omega),
    or_shiftLeft_eq_add _ h 24 (by omega)]
  omega

/-- C14: authenticated send framing. For every header of a 24-byte class, extension `x` and
payload `p` whose lengths fit the 32-bit length field, and a key that `aes.NewCipher` accepts,
`aesSend` writes the 24-byte header followed by `encryptAES key x ++ encryptAES key p` (each
part encrypted on its own, from the fixed IV); the header carries body_length equal to the
length of this cipher text, which is `len x + len p`, and payload_offset equal to `len x`
when `x` is not empty (the given payload_offset otherwise). -/
theorem aesSend_framing (blk : List Nat → List Nat → List Nat) (key : List Nat) (h : Header)
    (x p : List Nat) (hk : validKeySize key)
    (hc : h.Class = 0x6414 ∨ h.Class = 0x0000 ∨ h.Class = 0x1464)
    (hlen : x.length + p.length < 2 ^ 32) :
    ∃ cx cp, encryptAES blk key x = .ok cx ∧ encryptAES blk key p = .ok cp ∧
      cx.length = x.length ∧ cp.length = p.length ∧
      aesSend blk key h x p =
        .ok (le32 h.Magic ++ le32 h.MessageID ++ le32 (cx ++ cp).length
          ++ le32 (buildEncOffset h.Channel 0 h.Handle) ++ le16 h.Status ++ le16 h.Class
          ++ le32 (if x = [] then h.PayloadOffset else x.length) ++ (cx ++ cp)) ∧
      (cx ++ cp).length = x.length + p.length := by
  obtain ⟨cx, hx, hxl⟩ := encryptAES_ok blk key x hk
  obtain ⟨cp, hp, hpl⟩ := encryptAES_ok blk key p hk
  refine ⟨cx, cp, hx, hp, hxl, hpl, ?_, by simp [hxl, hpl]⟩
  have hbl : (cx ++ cp).length % 2 ^ 32 = (cx ++ cp).length := by
    apply Nat.mod_eq_of_lt
    simp only [List.length_append, hxl, hpl]; exact hlen
  have hxm : x.length % 2 ^ 32 = x.length := Nat.mod_eq_of_lt (by omega)
  simp only [aesSend, hx, hp, ok_bind, hbl, hxm]
  by_cases hx0 : x = []
  · subst hx0
    simp only [List.length_nil, gt_iff_lt, Nat.lt_irrefl, if_false, if_true]
    rw [writeHeader_24]
    · rfl
    · exact hc
  · have hpos : x.length > 0 := List.length_pos.mpr hx0
    simp only [hpos, if_true, hx0, if_false]
    rw [writeHeader_24]
    · rfl
    · exact hc


/-- Witness of `aesSend_framing`: a start-stream header, an extension of two bytes and a
payload of three bytes under the key of `plainEnv`. -/
theorem aesSend_framing_witness :
    ∃ cx cp, encryptAES plainEnv.aesBlock plainEnv.aesKey [1, 2] = .ok cx ∧
      encryptAES plainEnv.aesBlock plainEnv.aesKey [3, 4, 5] = .ok cp ∧
      cx.length = [1, 2].length ∧ cp.length = [3, 4, 5].length ∧
      aesSend plainEnv.aesBlock plainEnv.aesKey (mediaHeader 0 0) [1, 2] [3, 4, 5] =
        .ok (le32 (mediaHeader 0 0).Magic ++ le32 (mediaHeader 0 0).MessageID
          ++ le32 (cx ++ cp).length
          ++ le32 (buildEncOffset (mediaHeader 0 0).Channel 0 (mediaHeader 0 0).Handle)
          ++ le16 (mediaHeader 0 0).Status ++ le16 (mediaHeader 0 0).Class
          ++ le32 (if [1, 2] = [] then (mediaHeader 0 0).PayloadOffset else [1, 2].length)
          ++ (cx ++ cp)) ∧
      (cx ++ cp).length = [1, 2].length + [3, 4, 5].length :=
  aesSend_framing plainEnv.aesBlock plainEnv.aesKey (mediaHeader 0 0) [1, 2] [3, 4, 5]
    (by decide) (by decide) (by decide)

/-- Bytes 12..15 of a written header are the little-endian enc_offset. -/
theorem writeHeader_encOffset_bytes (h : Header) (body : List Nat)
    (hc : h.Class = 0x6514 ∨ h.Class = 0x6614 ∨ h.Class = 0x6414 ∨ h.Class = 0x0000 ∨
      h.Class = 0x1464) :
    ((writeHeader h ++ body).drop 12).take 4 = le32 h.EncOffset := by
  have h5 : (h.Class = 0x6514 ∨ h.Class = 0x6614) ∨
      (h.Class = 0x6414 ∨ h.Class = 0x0000 ∨ h.Class = 0x1464) := by
    rcases hc with hc | hc | hc | hc | hc <;> simp [hc]
  rcases h5 with h5 | h5
  · rw [writeHeader_20 h h5]; simp [le32, le16]
  · rw [writeHeader_24 h h5]; simp [le32, le16]

theorem le32_encOffset (c h : Nat) (hc : c ≤ 255) (hh : h ≤ 255) :
    le32 (buildEncOffset c 0 h) = [c, 0, 0, h] := by
  rw [buildEncOffset_eq c 0 h hc (by omega) hh]
  simp only [le32, Nat.shiftRight_eq_div_pow, List.cons.injEq, and_true]
  omega

/-- C15 (counterexample): for a header with channel 2, stream 1 and handle 3 both `bcSend` and
`aesSend` put the bytes `02 00 00 03` in the enc_offset field of the frame, while
`channel | stream << 8 | handle << 24` is `02 01 00 03`. -/
theorem enc_offset_on_wire_drops_stream :
    ((bcSend { Magic := 0x0ABCDEF0, MessageID := 1, BodyLength := 0, Channel := 2, Stream := 1,
               Handle := 3, Status := 0, Class := 0x6414, EncOffset := 0, PayloadOffset := 0,
               Is24 := false } [] [7] true).drop 12).take 4 = [2, 0, 0, 3] ∧
    (aesSend plainEnv.aesBlock plainEnv.aesKey
        { Magic := 0x0ABCDEF0, MessageID := 1, BodyLength := 0, Channel := 2, Stream := 1,
          Handle := 3, Status := 0, Class := 0x6414, EncOffset := 0, PayloadOffset := 0,
          Is24 := false } [] [7]).map (fun out => (out.drop 12).take 4) = .ok [2, 0, 0, 3] ∧
    le32 (2 ||| 1 <<< 8 ||| 3 <<< 24) = [2, 1, 0, 3] ∧
    ([2, 0, 0, 3] : List Nat) ≠ le32 (2 ||| 1 <<< 8 ||| 3 <<< 24) := by
  decide

/-- C15 (amended): on every frame sent by `bcSend` or `aesSend` with a header of one of the
five classes, for all channel and handle values in `[0, 255]`, the enc_offset written on the
wire (bytes 12..15) is `channel | (0 << 8) | (handle << 24)`: it is computed from the channel
and the handle of the header with the stream fixed to 0; the stream field of the header and
the enc_offset the caller put in the header are not used. -/
theorem send_enc_offset_from_channel_and_handle (blk : List Nat → List Nat → List Nat) (key : List Nat) (h : Header)
    (x p : List Nat) (e : Bool)
    (hc : h.Class = 0x6514 ∨ h.Class = 0x6614 ∨ h.Class = 0x6414 ∨ h.Class = 0x0000 ∨
      h.Class = 0x1464)
    (hch : h.Channel ≤ 255) (hh : h.Handle ≤ 255) :
    ((bcSend h x p e).drop 12).take 4 = [h.Channel, 0, 0, h.Handle] ∧
    (validKeySize key →
      ∃ out, aesSend blk key h x p = .ok out ∧
        (out.drop 12).take 4 = [h.Channel, 0, 0, h.Handle]) ∧
    [h.Channel, 0, 0, h.Handle] = le32 (h.Channel ||| 0 <<< 8 ||| h.Handle <<< 24) := by
  have hle := le32_encOffset h.Channel h.Handle hch hh
  refine ⟨?_, fun hk => ?_, ?_⟩
  · simp only [bcSend]
    rw [writeHeader_encOffset_bytes]
    · split <;> exact hle
    · split <;> exact hc
  · obtain ⟨cx, hx⟩ : ∃ c, encryptAES blk key x = .ok c := ⟨_, by rw [encryptAES, if_pos hk]⟩
    obtain ⟨cp, hp⟩ : ∃ c, encryptAES blk key p = .ok c := ⟨_, by rw [encryptAES, if_pos hk]⟩
    refine ⟨_, by simp only [aesSend, hx, hp, ok_bind]; rfl, ?_⟩
    rw [writeHeader_encOffset_bytes]
    · split <;> exact hle
    · split <;> exact hc
  · rw [← hle, buildEncOffset_eq h.Channel 0 h.Handle hch (by omega) hh]
    congr 1
    rw [Nat.zero_shiftLeft, Nat.or_zero, or_shiftLeft_eq_add _ _ 24 (by omega)]
    omega

/-- Witness of `send_enc_offset_from_channel_and_handle`: the header of the legacy login
request (channel 0, handle 1, class 0x6514), sent in the clear. -/
theorem send_enc_offset_from_channel_and_handle_witness :
    ((bcSend { Magic := 0x0ABCDEF0, MessageID := 1, BodyLength := 0, Channel := 0, Stream := 0,
               Handle := 1, Status := 0xDC12, Class := 0x6514, EncOffset := 0,
               PayloadOffset := 0, Is24 := false } [] [] false).drop 12).take 4
      = [0, 0, 0, 1] :=
  (send_enc_offset_from_channel_and_handle plainEnv.aesBlock plainEnv.aesKey
    { Magic := 0x0ABCDEF0, MessageID := 1, BodyLength := 0, Channel := 0, Stream := 0,
      Handle := 1, Status := 0xDC12, Class := 0x6514, EncOffset := 0, PayloadOffset := 0,
      Is24 := false } [] [] false (Or.inl rfl) (by decide) (by decide)).1

/-- C19: unknown magic is not fatal. For every input whose first four bytes are none of the
I-frame, P-frame, AAC and InfoV2 magics, `NewBCMediaPacket` returns no error and a packet
whose codec is the tag of an unknown sub-packet (the empty string, the zero value that the
default case leaves in `codec`) and whose data is the entire input. -/
theorem NewBCMediaPacket_unknown_magic (data : List Nat) (hl : 4 ≤ data.length)
    (hi : data.take 4 ≠ [0x30, 0x30, 0x64, 0x63]) (hp : data.take 4 ≠ [0x30, 0x31, 0x64, 0x63])
    (ha : data.take 4 ≠ [0x30, 0x35, 0x77, 0x62]) (hv : data.take 4 ≠ [0x31, 0x30, 0x30, 0x32]) :
    NewBCMediaPacket data
      = .ok { Codec := [], Data := data, Microseconds := 0, Timestamp := 0, info := none } := by
  have hl' : ¬ data.length < 4 := by omega
  simp only [NewBCMediaPacket, if_neg hl']
  rw [if_neg (by simpa [infoV2Magic] using hv), if_neg (by simpa [iFrameMagic] using hi),
    if_neg (by simpa [pFrameMagic] using hp), if_neg (by simpa [aacMagic] using ha)]
  rfl

/-- Witness of `NewBCMediaPacket_unknown_magic`: the magic `30 32 64 63` is not known. -/
theorem NewBCMediaPacket_unknown_magic_witness :
    NewBCMediaPacket [0x30, 0x32, 0x64, 0x63, 1, 2, 3]
      = .ok { Codec := [], Data := [0x30, 0x32, 0x64, 0x63, 1, 2, 3], Microseconds := 0,
              Timestamp := 0, info := none } :=
  NewBCMediaPacket_unknown_magic _ (by decide) (by decide) (by decide) (by decide) (by decide)

/-- C20 (counterexample): an AAC sub-packet laid out as the table of the spec has it (magic,
four ignored bytes `00 00 00 00`, payload_size 2, two ignored bytes, payload `AA BB`) is
parsed with the payload size taken from the first two ignored bytes: the packet has no data
bytes, not the payload `AA BB`. -/
theorem NewBCMediaPacket_spec_table_aac :
    NewBCMediaPacket ([0x30, 0x35, 0x77, 0x62] ++ [0, 0, 0, 0] ++ le16 2 ++ [0, 0]
        ++ [0xAA, 0xBB])
      = .ok { Codec := codecAAC, Data := [], Microseconds := 0, Timestamp := 0, info := none } ∧
    NewBCMediaPacket ([0x30, 0x35, 0x77, 0x62] ++ [0, 0, 0, 0] ++ le16 2 ++ [0, 0]
        ++ [0xAA, 0xBB])
      ≠ .ok { Codec := codecAAC, Data := [0xAA, 0xBB], Microseconds := 0, Timestamp := 0,
              info := none } := by
  decide

/-- C20 (amended): AAC parse. For every input laid out as magic `30 35 77 62`, then
payload_size (u16 LE), then 2 ignored bytes, then at least payload_size bytes,
`NewBCMediaPacket` succeeds with codec "AAC" and data equal to exactly those payload_size
payload bytes. -/
theorem NewBCMediaPacket_aac (ign payload extra : List Nat) (ps : Nat)
    (hps : ps < 2 ^ 16) (hign : ign.length = 2) (hpay : payload.length = ps) :
    NewBCMediaPacket ([0x30, 0x35, 0x77, 0x62] ++ le16 ps ++ ign ++ payload ++ extra)
      = .ok { Codec := codecAAC, Data := payload, Microseconds := 0, Timestamp := 0,
              info := none } := by
  have hmg : ([0x30, 0x35, 0x77, 0x62] : List Nat) = aacMagic := rfl
  rw [hmg]
  simp only [List.append_assoc]
  rw [NewBCMediaPacket_eq_parseAACFrame, parseAACFrame_ok ign payload extra ps hps hign hpay]
  rfl

/-- Witness of `NewBCMediaPacket_aac`: a payload of two bytes followed by one more byte. -/
theorem NewBCMediaPacket_aac_witness :
    NewBCMediaPacket ([0x30, 0x35, 0x77, 0x62] ++ le16 2 ++ [2, 0] ++ [0xAA, 0xBB] ++ [0xCC])
      = .ok { Codec := codecAAC, Data := [0xAA, 0xBB], Microseconds := 0, Timestamp := 0,
              info := none } :=
  NewBCMediaPacket_aac [2, 0] [0xAA, 0xBB] [0xCC] 2 (by decide) (by decide) (by decide)

/-- C16: a new head segment overrides any reassembly in progress. When a media message with
binary_data 1 and segment `seg` arrives, then for every content `current` of the reassembly
buffer: if `seg` parses as a complete sub-packet `p`, `Next` returns exactly `p`; if the parse
fails with `ErrInvalidPayloadSize`, the loop goes on with the buffer holding exactly `seg`;
and the result is the one obtained from the empty buffer. -/
theorem BCStreamReader_Next_head_overrides (env : Env) (m : BCMsg) (e : Extension)
    (seg r r1 : List Nat) (hread : MessageReader.Next r = (.ok m, r1)) (hm : isMedia m.header)
    (hd : decodeSegment env m = .ok (e, seg)) (hb : e.BinaryData = 1) :
    ∀ (fuel : Nat) (current : Option (List Nat)),
      (∀ p, NewBCMediaPacket seg = .ok p →
        BCStreamReader.Next env (fuel + 1) current r = .packet p r1) ∧
      (NewBCMediaPacket seg = .error .ErrInvalidPayloadSize →
        BCStreamReader.Next env (fuel + 1) current r
          = BCStreamReader.Next env fuel (some seg) r1) ∧
      BCStreamReader.Next env (fuel + 1) current r = BCStreamReader.Next env (fuel + 1) none r := by
  intro fuel current
  have hs := Next_step_head env fuel current r r1 seg m e hread hm hd hb
  have hn := Next_step_head env fuel none r r1 seg m e hread hm hd hb
  refine ⟨fun p hp => ?_, fun he => ?_, ?_⟩
  · rw [hs, hp]
  · rw [hs, he]
  · rw [hs, hn]

set_option maxRecDepth 100000 in
/-- Witness of `BCStreamReader_Next_head_overrides`, scenario 5 of the spec: the buffer holds
the partial head segment when a complete head segment arrives; the packet is the second. -/
theorem BCStreamReader_Next_head_overrides_witness :
    BCStreamReader.Next plainEnv (0 + 1) (some headSegment) (wireOf wholeMessage ++ [0xF0])
      = .packet { Codec := codecH264, Data := [0x11, 0x22], Microseconds := 9, Timestamp := 0,
                  info := none } [0xF0] :=
  ((BCStreamReader_Next_head_overrides plainEnv wholeMessage
      { EncryptLen := 0, BinaryData := 1, CheckPos := 0, CheckValue := 0 } wholeSegment
      (wireOf wholeMessage ++ [0xF0]) [0xF0] (by decide) (by decide) (by decide) (by decide)
      0 (some headSegment)).1 _ (by decide))

/-- Drop safety for the messages that the loop body decodes without a panic: with the
reassembly buffer empty, a media message with binary_data 0 that decodes to the segment `seg`
is dropped whatever `seg` is: the iteration returns no packet and the loop goes on with the
buffer still empty. So such a stray continuation followed by a media message with
binary_data 1 whose segment parses to `p` makes `Next` return exactly `p`. -/
theorem BCStreamReader_Next_drops_stray (env : Env) (m : BCMsg) (e : Extension)
    (seg r r1 : List Nat) (hread : MessageReader.Next r = (.ok m, r1)) (hm : isMedia m.header)
    (hd : decodeSegment env m = .ok (e, seg)) (hb : e.BinaryData = 0) :
    (∀ fuel, BCStreamReader.Next env (fuel + 1) none r = BCStreamReader.Next env fuel none r1) ∧
    (∀ (m2 : BCMsg) (e2 : Extension) (seg2 rest : List Nat) (p : BCMediaPacket),
      MessageReader.Next r1 = (.ok m2, rest) → isMedia m2.header →
      decodeSegment env m2 = .ok (e2, seg2) → e2.BinaryData = 1 →
      NewBCMediaPacket seg2 = .ok p →
      ∀ fuel, 2 ≤ fuel → BCStreamReader.Next env fuel none r = .packet p rest) := by
  have hb1 : e.BinaryData ≠ 1 := by rw [hb]; decide
  refine ⟨fun fuel => Next_step_stray env fuel r r1 seg m e hread hm hd hb1, ?_⟩
  intro m2 e2 seg2 rest p hread2 hm2 hd2 hb2 hp fuel hfuel
  obtain ⟨n, rfl⟩ : ∃ n, fuel = n + 1 + 1 := ⟨fuel - 2, by omega⟩
  rw [Next_step_stray env (n + 1) r r1 seg m e hread hm hd hb1,
    Next_step_head env n none r1 rest seg2 m2 e2 hread2 hm2 hd2 hb2, hp]

set_option maxRecDepth 100000 in
/-- Witness of `BCStreamReader_Next_drops_stray`, scenario 6 of the spec: a stray continuation,
then a complete head segment. -/
theorem BCStreamReader_Next_drops_stray_witness :
    BCStreamReader.Next plainEnv 2 none (wireOf strayMessage ++ (wireOf wholeMessage ++ [0xF0]))
      = .packet { Codec := codecH264, Data := [0x11, 0x22], Microseconds := 9, Timestamp := 0,
                  info := none } [0xF0] :=
  (BCStreamReader_Next_drops_stray plainEnv strayMessage
      { EncryptLen := 0, BinaryData := 0, CheckPos := 0, CheckValue := 0 } [5, 6, 7]
      (wireOf strayMessage ++ (wireOf wholeMessage ++ [0xF0])) (wireOf wholeMessage ++ [0xF0])
      (by decide) (by decide) (by decide) (by decide)).2 wholeMessage
    { EncryptLen := 0, BinaryData := 1, CheckPos := 0, CheckValue := 0 } wholeSegment [0xF0] _
    (by decide) (by decide) (by decide) (by decide) (by decide) 2 (by decide)

theorem readFull_ok_length (r : List Nat) (n : Nat) (b r1 : List Nat)
    (h : readFull r n = (.ok b, r1)) : b.length = n := by
  unfold readFull at h
  split at h
  · rename_i hn
    simp only [Prod.mk.injEq, Except.ok.injEq] at h
    rw [← h.1, List.length_take]; omega
  · split at h <;> simp at h

/-- A message that was read has a body of the announced length. -/
theorem MessageReader_Next_body_length (r r1 : List Nat) (m : BCMsg)
    (h : MessageReader.Next r = (.ok m, r1)) : m.body.length = m.header.BodyLength := by
  unfold MessageReader.Next at h
  rcases hph : parseHeader r with ⟨res, r2⟩
  rw [hph] at h
  cases res with
  | error e => simp at h
  | ok hd =>
    simp only at h
    split at h
    · rcases hrf : readFull r2 hd.BodyLength with ⟨res2, r3⟩
      rw [hrf] at h
      cases res2 with
      | error e => simp at h
      | ok body =>
        simp only [Prod.mk.injEq, Except.ok.injEq] at h
        rw [← h.1]
        exact readFull_ok_length r2 hd.BodyLength body r3 hrf
    · rename_i hb
      simp only [Prod.mk.injEq, Except.ok.injEq] at h
      rw [← h.1]
      simp only [List.length_nil]
      omega

theorem decryptAES_ok (blk : List Nat → List Nat → List Nat) (key body : List Nat)
    (hk : validKeySize key) :
    ∃ c, decryptAES blk key body = .ok c ∧ c.length = body.length := by
  refine ⟨_, by rw [decryptAES, if_pos hk], cfbXORKeyStream_length _ _ _ _ _ _⟩

/-- C17 (failing inputs): a media message with binary_data 0 whose extension declares an
encrypt_len greater than the payload that follows it is not dropped: the slice
`decryptAES(..)[:EncryptLen]`, taken before the dispatch on binary_data, is out of range and
`BCStreamReader.Next` panics, whatever the reassembly buffer holds (the empty buffer
included). -/
theorem BCStreamReader_Next_panics_on_stray (env : Env) (m : BCMsg) (r r1 xml : List Nat)
    (ext : Extension)
    (hread : MessageReader.Next r = (.ok m, r1)) (hm : isMedia m.header)
    (hoff : m.header.PayloadOffset ≤ m.header.BodyLength)
    (hk : validKeySize env.aesKey)
    (hx : decryptAES env.aesBlock env.aesKey (m.body.take m.header.PayloadOffset) = .ok xml)
    (hu : env.unmarshalExtension xml = some ext)
    (he : ((m.header.BodyLength - m.header.PayloadOffset : Nat) : Int) < ext.EncryptLen) :
    ext.BinaryData = 0 →
    decodeSegment env m = .error .panic ∧
    ∀ (fuel : Nat) (current : Option (List Nat)),
      BCStreamReader.Next env (fuel + 1) current r = .abort .panic := by
  intro _
  have hlen := MessageReader_Next_body_length r r1 m hread
  have hd : decodeSegment env m = .error .panic := by
    obtain ⟨plain, hp, hpl⟩ := decryptAES_ok env.aesBlock env.aesKey
      (List.drop m.header.PayloadOffset (List.take m.header.BodyLength m.body)) hk
    have h1 : ¬ m.header.PayloadOffset > m.body.length := by omega
    have h2 : ¬ (m.header.BodyLength > m.body.length ∨
        m.header.PayloadOffset > m.header.BodyLength) := by omega
    have hne : ext.EncryptLen ≠ 0 := by omega
    have hpl' : (plain.length : Int) < ext.EncryptLen := by
      rw [hpl, List.length_drop, List.length_take, hlen, Nat.min_self]
      exact he
    have hgt : ext.EncryptLen < 0 ∨ ext.EncryptLen > (plain.length : Int) := Or.inr hpl'
    simp only [decodeSegment, if_neg h1, if_neg h2, hx, hu, hp, if_pos hgt, ne_eq, hne,
      not_false_eq_true, if_true]
  refine ⟨hd, fun fuel current => ?_⟩
  obtain ⟨h1, h2, h3⟩ := hm
  simp only [BCStreamReader.Next, hread, h1, h2, h3, ne_eq, not_true_eq_false, if_false, hd]

set_option maxRecDepth 100000 in
/-- Witness of `BCStreamReader_Next_panics_on_stray`: a stray continuation with encrypt_len 9
and a payload of three bytes, in front of a complete head segment, on the empty buffer. -/
theorem BCStreamReader_Next_panics_on_stray_witness :
    BCStreamReader.Next sizedEnv (1 + 1) none (wireOf oversizedStray ++ wireOf sizedWhole)
      = .abort .panic :=
  (BCStreamReader_Next_panics_on_stray sizedEnv oversizedStray
    (wireOf oversizedStray ++ wireOf sizedWhole) (wireOf sizedWhole) [0, 9]
    { EncryptLen := 9, BinaryData := 0, CheckPos := 0, CheckValue := 0 }
    (by decide) (by decide) (by decide) (by decide) (by decide) (by decide) (by decide)
    (by decide)).2 1 none

set_option maxRecDepth 100000 in
/-- The same stream with encrypt_len 0 or 3 in the stray message: the stray is dropped and the
head segment behind it is returned. -/
theorem stray_in_range_is_dropped :
    BCStreamReader.Next sizedEnv 2 none
        (wireOf { header := mediaHeader 5 2, body := [0, 0, 5, 6, 7] } ++ wireOf sizedWhole)
      = .packet { Codec := codecH264, Data := [0x11, 0x22], Microseconds := 9, Timestamp := 0,
                  info := none } [] ∧
    BCStreamReader.Next sizedEnv 2 none
        (wireOf { header := mediaHeader 5 2, body := [0, 3, 5, 6, 7] } ++ wireOf sizedWhole)
      = .packet { Codec := codecH264, Data := [0x11, 0x22], Microseconds := 9, Timestamp := 0,
                  info := none } [] := by
  decide

/-- C18: status filter. Messages with status other than 200, message_id other than 3 or
handle other than 1 are skipped: for every buffer content `current`, after `junk` such
messages the loop is in the state it would be in without them, with the same buffer. So,
wherever such messages are inserted, `Next` returns the packet it returns without them. -/
theorem BCStreamReader_Next_skips_non_media (env : Env) :
    ∀ (junk : List BCMsg) (r r1 : List Nat), Delivers r junk r1 →
      (∀ m ∈ junk, ¬ isMedia m.header) →
      ∀ (fuel : Nat) (current : Option (List Nat)),
        BCStreamReader.Next env (fuel + junk.length) current r
          = BCStreamReader.Next env fuel current r1 ∧
        (∀ p rest, BCStreamReader.Next env fuel current r1 = .packet p rest →
          BCStreamReader.Next env (fuel + junk.length) current r = .packet p rest) := by
  intro junk
  induction junk with
  | nil =>
    intro r r1 hd _ fuel current
    have : r = r1 := hd
    subst this
    exact ⟨rfl, fun p rest h => h⟩
  | cons m ms ih =>
    intro r r1 hd hj fuel current
    obtain ⟨r2, hread, hd2⟩ := hd
    have hstep := Next_step_skip env (fuel + ms.length) current r r2 m hread
      (hj m (List.mem_cons_self _ _))
    have hrec := (ih r2 r1 hd2 (fun m' hm' => hj m' (List.mem_cons_of_mem _ hm')) fuel current).1
    have heq : BCStreamReader.Next env (fuel + (m :: ms).length) current r
        = BCStreamReader.Next env fuel current r1 := by
      rw [List.length_cons, ← Nat.add_assoc, hstep, hrec]
    exact ⟨heq, fun p rest h => by rw [heq, h]⟩

set_option maxRecDepth 100000 in
/-- Witness of `BCStreamReader_Next_skips_non_media`: a message with status 500 in front of the
continuation, while the buffer holds the head segment. -/
theorem BCStreamReader_Next_skips_non_media_witness :
    BCStreamReader.Next plainEnv (1 + [statusMessage].length) (some headSegment)
        (wireOf statusMessage ++ (wireOf tailMessage ++ [0xF0]))
      = BCStreamReader.Next plainEnv 1 (some headSegment) (wireOf tailMessage ++ [0xF0]) :=
  (BCStreamReader_Next_skips_non_media plainEnv [statusMessage]
    (wireOf statusMessage ++ (wireOf tailMessage ++ [0xF0])) (wireOf tailMessage ++ [0xF0])
    ⟨_, by decide, rfl⟩
    (by intro m hm; obtain rfl : m = statusMessage := by simpa using hm
        decide)
    1 (some headSegment)).1

set_option maxRecDepth 100000 in
/-- Scenarios 5, 6 and 7 of the spec, evaluated. -/
theorem demuxer_scenarios :
    BCStreamReader.Next plainEnv 2 none (wireOf headMessage ++ wireOf wholeMessage)
      = .packet { Codec := codecH264, Data := [0x11, 0x22], Microseconds := 9, Timestamp := 0,
                  info := none } [] ∧
    BCStreamReader.Next plainEnv 2 none (wireOf strayMessage ++ wireOf wholeMessage)
      = .packet { Codec := codecH264, Data := [0x11, 0x22], Microseconds := 9, Timestamp := 0,
                  info := none } [] ∧
    BCStreamReader.Next plainEnv 3 none
        (wireOf headMessage ++ wireOf statusMessage ++ wireOf tailMessage)
      = .packet { Codec := codecH264,
                  Data := List.replicate 60 0xAB ++ List.replicate 40 0xCD,
                  Microseconds := 7, Timestamp := 0, info := none } [] := by
  decide

/-! ### Third part: digests and login, AES round trip, low byte of the offset -/

/-- Decrypting, from the same state of the CFB stream, what was encrypted gives the input
back. -/
theorem cfbXORKeyStream_decrypt_encrypt (blk : List Nat → List Nat) (src : List Nat) :
    ∀ (out : List Nat) (used : Nat) (next : List Nat),
      cfbXORKeyStream blk true out used next (cfbXORKeyStream blk false out used next src)
        = src := by
  induction src with
  | nil => intro out used next; rfl
  | cons s src ih =>
    intro out used next
    simp only [cfbXORKeyStream, Bool.false_eq_true, if_false, if_true, Nat.xor_cancel_right]
    rw [ih]

/-- C22: AES round trip. For every byte string `b` and every 16-byte key `k`, `encryptAES`
returns a cipher text of the length of `b`, and `decryptAES` under the same key gives `b`
back; both run the CFB stream of the block cipher from the fixed IV "0123456789abcdef", in
the encrypting and in the decrypting direction. -/
theorem decryptAES_encryptAES (blk : List Nat → List Nat → List Nat) (k b : List Nat)
    (hk : k.length = 16) :
    ∃ c, encryptAES blk k b = .ok c ∧ c.length = b.length ∧ decryptAES blk k c = .ok b ∧
      encryptAES blk k b
        = .ok (cfbXORKeyStream (blk k) false (List.replicate 16 0) 16
            [0x30, 0x31, 0x32, 0x33, 0x34, 0x35, 0x36, 0x37, 0x38, 0x39, 0x61, 0x62, 0x63, 0x64,
             0x65, 0x66] b) ∧
      decryptAES blk k c
        = .ok (cfbXORKeyStream (blk k) true (List.replicate 16 0) 16
            [0x30, 0x31, 0x32, 0x33, 0x34, 0x35, 0x36, 0x37, 0x38, 0x39, 0x61, 0x62, 0x63, 0x64,
             0x65, 0x66] c) := by
  have hv : validKeySize k := Or.inl hk
  refine ⟨_, by rw [encryptAES, if_pos hv], cfbXORKeyStream_length _ _ _ _ _ _, ?_,
    by rw [encryptAES, if_pos hv]; rfl, by rw [decryptAES, if_pos hv]; rfl⟩
  rw [decryptAES, if_pos hv, cfbXORKeyStream_decrypt_encrypt]

/-- Witness of `decryptAES_encryptAES`: twenty bytes, more than one block, under the block
function `mixBlock` and a 16-byte key. -/
theorem decryptAES_encryptAES_witness :
    ∃ c, encryptAES mixBlock (List.replicate 16 0x41) (List.range 20) = .ok c ∧
      c.length = (List.range 20).length ∧
      decryptAES mixBlock (List.replicate 16 0x41) c = .ok (List.range 20) :=
  (decryptAES_encryptAES mixBlock (List.replicate 16 0x41) (List.range 20) (by decide)).imp
    (fun _ h => ⟨h.1, h.2.1, h.2.2.1⟩)

/-- C23: the BC XOR cipher depends on enc_offset only through its low byte. For every byte
string `b` and offsets `E1`, `E2` with `E1 AND 0xFF = E2 AND 0xFF`, `encryptBC` and `decryptBC`
return the same output under `E1` and under `E2`; so two packed offsets with the same channel
give the same output whatever their stream and handle bytes are. -/
theorem bc_cipher_low_byte_only (E1 E2 : Nat) (b : List Nat) (h : E1 &&& 0xFF = E2 &&& 0xFF) :
    encryptBC E1 b = encryptBC E2 b ∧ decryptBC E1 b = decryptBC E2 b ∧
    (∀ c s h1 s2 h2, c ≤ 255 → s ≤ 255 → h1 ≤ 255 → s2 ≤ 255 → h2 ≤ 255 →
      encryptBC (buildEncOffset c s h1) b = encryptBC (buildEncOffset c s2 h2) b ∧
      decryptBC (buildEncOffset c s h1) b = decryptBC (buildEncOffset c s2 h2) b) := by
  have key : ∀ A B : Nat, A % 256 = B % 256 → encryptBC A b = encryptBC B b := by
    intro A B hAB
    unfold encryptBC
    apply rangeMap_congr
    intro i x
    have h8 : (A + i) % bcKey.length = (B + i) % bcKey.length := by
      simp only [bcKey, List.length_cons, List.length_nil]
      omega
    simp only [h8, hAB]
  have h256 : E1 % 256 = E2 % 256 := by
    have e1 : E1 &&& 0xFF = E1 % 256 := Nat.and_pow_two_sub_one_eq_mod E1 8
    have e2 : E2 &&& 0xFF = E2 % 256 := Nat.and_pow_two_sub_one_eq_mod E2 8
    rw [← e1, ← e2, h]
  refine ⟨key E1 E2 h256, ?_, ?_⟩
  · rw [← encryptBC_eq_decryptBC, ← encryptBC_eq_decryptBC]; exact key E1 E2 h256
  · intro c s h1 s2 h2 hc hs hh1 hs2 hh2
    have hb : buildEncOffset c s h1 % 256 = buildEncOffset c s2 h2 % 256 := by
      rw [buildEncOffset_eq c s h1 hc hs hh1, buildEncOffset_eq c s2 h2 hc hs2 hh2]
      omega
    refine ⟨key _ _ hb, ?_⟩
    rw [← encryptBC_eq_decryptBC, ← encryptBC_eq_decryptBC]; exact key _ _ hb

/-- Witness of `bc_cipher_low_byte_only`: the offsets 0x01000201 and 0x00000001 share the low
byte. -/
theorem bc_cipher_low_byte_only_witness :
    encryptBC 0x01000201 [0x48, 0x65] = encryptBC 0x00000001 [0x48, 0x65] ∧
    decryptBC 0x01000201 [0x48, 0x65] = decryptBC 0x00000001 [0x48, 0x65] :=
  ⟨(bc_cipher_low_byte_only 0x01000201 0x00000001 [0x48, 0x65] (by decide)).1,
   (bc_cipher_low_byte_only 0x01000201 0x00000001 [0x48, 0x65] (by decide)).2.1⟩


theorem sprintfHexUpper_length (b : List Nat) : (sprintfHexUpper b).length = 2 * b.length := by
  induction b with
  | nil => rfl
  | cons c cs ih => simp only [sprintfHexUpper, List.length_cons, ih]; omega

theorem udigits_getD_mem (n : Nat) (h : n < 16) : udigits.getD n 0 ∈ udigits := by
  interval_cases n <;> decide

theorem sprintfHexUpper_mem (b : List Nat) (hb : Bytes b) :
    ∀ ch ∈ sprintfHexUpper b, ch ∈ udigits := by
  induction b with
  | nil => intro ch h; simp [sprintfHexUpper] at h
  | cons c cs ih =>
    intro ch h
    have hc : c < 256 := hb c (List.mem_cons_self _ _)
    have hcs : Bytes cs := fun x hx => hb x (List.mem_cons_of_mem _ hx)
    simp only [sprintfHexUpper, List.mem_cons] at h
    rcases h with h | h | h
    · rw [h]
      apply udigits_getD_mem
      rw [Nat.shiftRight_eq_div_pow]; omega
    · rw [h]
      apply udigits_getD_mem
      have : c &&& 0xF = c % 16 := Nat.and_pow_two_sub_one_eq_mod c 4
      rw [this]; omega
    · exact ih hcs ch h

theorem udigits_range : ∀ ch ∈ udigits, (0x30 ≤ ch ∧ ch ≤ 0x39) ∨ (0x41 ≤ ch ∧ ch ≤ 0x46) := by
  decide

/-- What `login` has written once the legacy reply carried a nonce. -/
theorem login_written (env : LoginEnv) (username password r r1 nonce : List Nat) (msg : BCMsg)
    (hread : MessageReader.Next r = (.ok msg, r1))
    (hn : env.unmarshalLegacyNonce (decryptBC msg.header.EncOffset msg.body) = some nonce)
    (hne : nonce ≠ []) :
    (login env username password r).written =
      bcSend legacyLoginHeader [] [] false ++
        bcSend modernLoginHeader []
          (xmlHeader ++ env.xmlMarshal
            (modernLoginReq (md5HexUpper env.md5Sum (username ++ nonce))
              (md5HexUpper env.md5Sum (password ++ nonce)))) true ∧
    (login env username password r).aesKey
      = (md5HexUpper env.md5Sum (nonce ++ [0x2D] ++ password)).take 16 := by
  simp only [login, hread, hn, if_neg hne, NewModernLoginReq]
  rcases MessageReader.Next r1 with ⟨res, r2⟩
  cases res with
  | error e => exact ⟨rfl, rfl⟩
  | ok msg2 =>
    simp only
    split <;> exact ⟨rfl, rfl⟩

/-- C21: MD5 digest truncation. With a digest function that returns 16 bytes, for every input
`x` the string `md5HexUpper x` has length exactly 31, consists only of the characters `0-9` and
`A-F`, and is the first 31 characters of the 32-character upper-case hexadecimal encoding of
the digest of `x`. In the modern login request that `login` sends once the legacy reply gave
the nonce, the user name and the password are `md5HexUpper (username + nonce)` and
`md5HexUpper (password + nonce)`. -/
theorem md5HexUpper_digest (env : LoginEnv)
    (hmd5 : ∀ x, (env.md5Sum x).length = 16 ∧ Bytes (env.md5Sum x)) :
    (∀ x, (md5HexUpper env.md5Sum x).length = 31 ∧
      (∀ ch ∈ md5HexUpper env.md5Sum x, (0x30 ≤ ch ∧ ch ≤ 0x39) ∨ (0x41 ≤ ch ∧ ch ≤ 0x46)) ∧
      (sprintfHexUpper (env.md5Sum x)).length = 32 ∧
      md5HexUpper env.md5Sum x = (sprintfHexUpper (env.md5Sum x)).take 31) ∧
    (∀ (username password r r1 nonce : List Nat) (msg : BCMsg),
      MessageReader.Next r = (.ok msg, r1) →
      env.unmarshalLegacyNonce (decryptBC msg.header.EncOffset msg.body) = some nonce →
      nonce ≠ [] →
      (login env username password r).written =
        bcSend legacyLoginHeader [] [] false ++
          bcSend modernLoginHeader []
            (xmlHeader ++ NewModernLoginReq env.xmlMarshal
              (md5HexUpper env.md5Sum (username ++ nonce))
              (md5HexUpper env.md5Sum (password ++ nonce))) true ∧
      (modernLoginReq (md5HexUpper env.md5Sum (username ++ nonce))
          (md5HexUpper env.md5Sum (password ++ nonce))).LoginUser.UserName
        = md5HexUpper env.md5Sum (username ++ nonce) ∧
      (modernLoginReq (md5HexUpper env.md5Sum (username ++ nonce))
          (md5HexUpper env.md5Sum (password ++ nonce))).LoginUser.Password
        = md5HexUpper env.md5Sum (password ++ nonce)) := by
  constructor
  · intro x
    obtain ⟨hl, hb⟩ := hmd5 x
    have h32 : (sprintfHexUpper (env.md5Sum x)).length = 32 := by
      rw [sprintfHexUpper_length, hl]
    refine ⟨by simp [md5HexUpper, h32], ?_, h32, rfl⟩
    intro ch hch
    exact udigits_range ch
      (sprintfHexUpper_mem _ hb ch (List.mem_of_mem_take hch))
  · intro username password r r1 nonce msg hread hn hne
    exact ⟨(login_written env username password r r1 nonce msg hread hn hne).1, rfl, rfl⟩

set_option maxRecDepth 100000 in
/-- Witness of `md5HexUpper_digest`: the user "admin", the password "pw" and the nonce "AB" of
`legacyReply`, with the digest of `plainLoginEnv`. -/
theorem md5HexUpper_digest_witness :
    (md5HexUpper plainLoginEnv.md5Sum [0x61, 0x64, 0x6D, 0x69, 0x6E, 0x41, 0x42]).length = 31 ∧
    (login plainLoginEnv [0x61, 0x64, 0x6D, 0x69, 0x6E] [0x70, 0x77] legacyReply).written =
      bcSend legacyLoginHeader [] [] false ++
        bcSend modernLoginHeader []
          (xmlHeader ++ NewModernLoginReq plainLoginEnv.xmlMarshal
            (md5HexUpper plainLoginEnv.md5Sum ([0x61, 0x64, 0x6D, 0x69, 0x6E] ++ [0x41, 0x42]))
            (md5HexUpper plainLoginEnv.md5Sum ([0x70, 0x77] ++ [0x41, 0x42]))) true :=
  ⟨((md5HexUpper_digest plainLoginEnv (fun x => ⟨by simp [plainLoginEnv], by
        intro b hb
        simp only [plainLoginEnv, List.mem_append, List.mem_replicate, List.mem_singleton] at hb
        rcases hb with ⟨-, rfl⟩ | rfl
        · decide
        · omega⟩)).1 _).1,
   ((md5HexUpper_digest plainLoginEnv (fun x => ⟨by simp [plainLoginEnv], by
        intro b hb
        simp only [plainLoginEnv, List.mem_append, List.mem_replicate, List.mem_singleton] at hb
        rcases hb with ⟨-, rfl⟩ | rfl
        · decide
        · omega⟩)).2 [0x61, 0x64, 0x6D, 0x69, 0x6E] [0x70, 0x77] legacyReply [] [0x41, 0x42]
      { header := { Header.zero with Magic := MagicLE, MessageID := 1, BodyLength := 2,
                                     Handle := 1, Status := 0xDD12, Class := ClassLegacy20,
                                     EncOffset := 0x01000000 },
        body := encryptBC 0x01000000 [0x41, 0x42] }
      (by decide) (by decide) (by decide)).1⟩


end Reolink
